import Mathlib

/-!
Verification of the SurveyLensAI data pipeline.

This file gives a shallow embedding, in Lean 4, of the core data pipeline of
the SurveyLensAI repository (an Angular application that ingests survey CSV
data, classifies each response via an external analyzer, and aggregates the
classified results), together with theorems settling the frozen claims about
it.

Modelling conventions:
* JS strings are `String` / `List Char`; JS array indexing `xs[i]` is
  `List.get?`; `undefined` is `none`.
* A JS `Date` value is its ECMAScript time value (milliseconds since epoch)
  as an `Int` (the timezone offset of `new Date(y, m, d)` is modelled as 0;
  none of the verified properties depend on the offset).
* JS numbers used for `sentiment_score` are modelled as `Rat`; the exact
  decimal rendering used on export is abstracted by a `showNum` parameter.
  `Math.round((p/t)*100)` is modelled exactly over the rationals
  (round half towards positive infinity); binary floating point and the
  rational model agree on every realistically sized batch.
* The external Gemini analyzer is an oracle parameter: it returns either a
  parsed classification object or an error object, exactly the two shapes
  `analyzeSurveyResponse` can produce.
* JS objects used as string-keyed dictionaries (`counts`, the topic `root`
  lookup table, survey rows) are association lists in insertion order, which
  matches JS enumeration order for the non-integer-like keys this program
  uses.
* `Array.prototype.sort` with comparator `(a, b) => b.count - a.count` is
  required by ECMA-262 to be stable; a stable sort with respect to a total
  preorder has a unique result, so it is modelled by a stable insertion sort.
-/

set_option autoImplicit false

namespace SurveyLens

/-! ## CsvCodec: `parseCsv` (app.component.ts lines 146-179) -/

/-- Whitespace recognised by `String.prototype.trim` (the ASCII part, which is
all this pipeline's inputs use). -/
def isJsWs (c : Char) : Bool :=
  c = ' ' || c = '\t' || c = '\n' || c = '\r' || c = Char.ofNat 11 || c = Char.ofNat 12

/-- `line.trim()`. -/
def jsTrim (l : List Char) : List Char :=
  ((l.dropWhile isJsWs).reverse.dropWhile isJsWs).reverse

/-- `text.split(/\r\n|\n/)`: split on LF or CRLF, a lone CR does not split. -/
def splitLines : List Char → List (List Char)
  | [] => [[]]
  | '\r' :: '\n' :: rest => [] :: splitLines rest
  | '\n' :: rest => [] :: splitLines rest
  | c :: rest =>
    match splitLines rest with
    | [] => [[c]]
    | l :: ls => (c :: l) :: ls

/-- The character-by-character field scanner of `parseCsv`, for one line.
State: `inQuotes`, the current field, the fields emitted so far.  A quote
toggles quoted mode unless it is a doubled quote inside quoted mode (which
emits one literal quote); a comma outside quotes ends the field; every field
is trimmed on emission. -/
def parseLineAux : Bool → List Char → List Char → List String → List String
  | _, cur, [], fields => fields ++ [String.mk (jsTrim cur)]
  | true, cur, '"' :: '"' :: rest, fields => parseLineAux true (cur ++ ['"']) rest fields
  | true, cur, '"' :: rest, fields => parseLineAux false cur rest fields
  | false, cur, '"' :: rest, fields => parseLineAux true cur rest fields
  | false, cur, ',' :: rest, fields =>
    parseLineAux false [] rest (fields ++ [String.mk (jsTrim cur)])
  | inQuotes, cur, c :: rest, fields => parseLineAux inQuotes (cur ++ [c]) rest fields

/-- Parse one CSV line into its fields. -/
def parseLine (l : List Char) : List String := parseLineAux false [] l []

/-- `parseCsv(text)`: split into lines, drop lines blank after trimming, scan
each line.  (The header-count consistency check in the source only logs a
warning and has no effect on the returned data.) -/
def parseCsv (text : String) : List (List String) :=
  let lines := (splitLines text.data).filter (fun l => !(jsTrim l).isEmpty)
  lines.map parseLine

/-! ## CsvCodec: `escapeCsvCell` and `exportToCsv` (lines 338-375) -/

/-- A value handed to `escapeCsvCell`: `null`/`undefined`, a string, a number
(carried in its JS decimal rendering), or an array of strings. -/
inductive CsvCell where
  | nullCell
  | strCell (s : String)
  | numCell (rendered : String)
  | arrCell (xs : List String)
deriving DecidableEq

/-- `String(cell)` followed by the array override `cell.join('|')`. -/
def cellString : CsvCell → String
  | .nullCell => ""
  | .strCell s => s
  | .numCell r => r
  | .arrCell xs => String.intercalate "|" xs

/-- `str.includes(',') || str.includes('"') || str.includes('\n')`. -/
def needsQuoting (s : String) : Bool :=
  s.data.contains ',' || s.data.contains '"' || s.data.contains '\n'

/-- `str.replace(/"/g, '""')`. -/
def doubleQuotes : List Char → List Char
  | [] => []
  | '"' :: rest => '"' :: '"' :: doubleQuotes rest
  | c :: rest => c :: doubleQuotes rest

/-- `escapeCsvCell(cell)`: empty string for `null`/`undefined`; otherwise the
string form, quoted with internal quotes doubled iff it contains a comma, a
quote, or a line feed. -/
def escapeCsvCell (cell : CsvCell) : String :=
  match cell with
  | .nullCell => ""
  | _ =>
    let str := cellString cell
    if needsQuoting str then String.mk ('"' :: (doubleQuotes str.data ++ ['"']))
    else str

/-! ## TemporalNormalizer: `parseDate` (lines 239-252) -/

/-- Day number of a civil date (days since 1970-01-01), the standard
days-from-civil algorithm; `m` is the month 1..12, `d` the (possibly
out-of-range, it rolls over linearly) day of month.  `/` and `%` on `Int`
are Euclidean, which is floor division for the positive divisors used here. -/
def daysFromCivil (y m d : Int) : Int :=
  let y1 := if m ≤ 2 then y - 1 else y
  let era := y1 / 400
  let yoe := y1 % 400
  let mp := (m + 9) % 12
  let doy := (153 * mp + 2) / 5 + d - 1
  let doe := yoe * 365 + yoe / 4 - yoe / 100 + doy
  era * 146097 + doe - 719468

/-- ECMAScript `MakeDay(y, mi, d)`: the month index `mi` may lie outside
0..11 and rolls over into the year (`new Date(2024, 12, 5)` is Jan 5 2025);
the day also rolls over linearly. -/
def jsMakeDay (y mi d : Int) : Int :=
  daysFromCivil (y + mi / 12) (mi % 12 + 1) d

/-- The `Date(y, mi, d)` constructor's year rule: a year argument from 0
through 99 is taken as `1900 + y`; any other year is used as given. -/
def jsYearFor (y : Int) : Int := if 0 ≤ y ∧ y ≤ 99 then 1900 + y else y

/-- The time value of `new Date(y, mi, d)` (offset modelled as 0): the
constructor first applies the two-digit-range year rule to `y`, then
`MakeDay` rolls the month and day over. -/
def jsDateValue (y mi d : Int) : Int := 86400000 * jsMakeDay (jsYearFor y) mi d

/-- ECMAScript `TimeClip`: a time value is a valid instant (`!isNaN`) iff its
magnitude is at most 8.64e15 milliseconds. -/
def jsTimeValid (ms : Int) : Bool := ms.natAbs ≤ 8640000000000000

/-- The `\d` character class. -/
def isDigitCh (c : Char) : Bool := 48 ≤ c.toNat && c.toNat ≤ 57

/-- Match exactly `n` digits at the front. -/
def takeDigits : Nat → List Char → Option (List Char × List Char)
  | 0, rest => some ([], rest)
  | _ + 1, [] => none
  | n + 1, c :: rest =>
    if isDigitCh c then
      match takeDigits n rest with
      | some (ds, rest2) => some (c :: ds, rest2)
      | none => none
    else none

/-- `parseInt` on a run of digits. -/
def digitsToNat (l : List Char) : Nat := l.foldl (fun acc c => 10 * acc + (c.toNat - 48)) 0

/-- The slash-or-dash character class. -/
def isSep (c : Char) : Bool := c = '/' || c = '-'

/-- One backtracking attempt of the numeric date pattern (two 1-2 digit groups and a 4 digit year,
separated by slash or dash) at the
start of `l`, with the first two groups taking `n1` and `n2` digits. -/
def matchWith (n1 n2 : Nat) (l : List Char) : Option (Nat × Nat × Nat) :=
  match takeDigits n1 l with
  | none => none
  | some (d1, r1) =>
    match r1 with
    | [] => none
    | s1 :: r2 =>
      if isSep s1 then
        match takeDigits n2 r2 with
        | none => none
        | some (d2, r3) =>
          match r3 with
          | [] => none
          | s2 :: r4 =>
            if isSep s2 then
              match takeDigits 4 r4 with
              | some (d3, _) => some (digitsToNat d1, digitsToNat d2, digitsToNat d3)
              | none => none
            else none
      else none

/-- the numeric date pattern (two 1-2 digit groups and a 4 digit year,
separated by slash or dash) anchored at the start of `l`: the
greedy one-or-two-digit groups backtrack in the order (2,2), (2,1), (1,2),
(1,1). -/
def matchDateHere (l : List Char) : Option (Nat × Nat × Nat) :=
  match matchWith 2 2 l with
  | some r => some r
  | none =>
    match matchWith 2 1 l with
    | some r => some r
    | none =>
      match matchWith 1 2 l with
      | some r => some r
      | none => matchWith 1 1 l

/-- The regex match over `dateStr`: the first match,
scanning start positions left to right. -/
def findDatePattern : List Char → Option (Nat × Nat × Nat)
  | [] => none
  | c :: rest =>
    match matchDateHere (c :: rest) with
    | some r => some r
    | none => findDatePattern rest

/-- `parseDate(dateStr)` (lines 239-252).  `generalParse` is an oracle for
the host's `new Date(string)` calendar-string parser (`some t` = a valid
instant with time value `t`, `none` = `Invalid Date`).  On general-parse
failure the numeric slash-or-dash-separated `D D YYYY` pattern is tried as month/day/year and
then as day/month/year, each accepted if `!isNaN`. -/
def parseDate (generalParse : String → Option Int) (dateStr : String) : Option Int :=
  if dateStr = "" then none
  else
    match generalParse dateStr with
    | some t => some t
    | none =>
      match findDatePattern dateStr.data with
      | some (p1, p2, p3) =>
        let d2 := jsDateValue (Int.ofNat p3) (Int.ofNat p1 - 1) (Int.ofNat p2)
        if jsTimeValid d2 then some d2
        else
          let d3 := jsDateValue (Int.ofNat p3) (Int.ofNat p2 - 1) (Int.ofNat p1)
          if jsTimeValid d3 then some d3 else none
      | none => none

/-! ## Data model (gemini.service.ts lines 4-22, app.component.ts lines 194-236) -/

/-- The classification object produced by the analyzer (the `analysis` field
shape of `AnalysisResult` in gemini.service.ts). -/
structure Classification where
  sentiment : String
  sentiment_score : Rat
  intent : String
  emotions : List String
  topics : List String
  explanation : String
  confidence : Nat
  redacted_excerpt : String
deriving DecidableEq

/-- The value returned by `analyzeSurveyResponse`: a parsed classification
JSON, or the error object built in its catch block. -/
inductive AnalyzerOutput where
  | classification (c : Classification)
  | errorObj (msg : String)
deriving DecidableEq

/-- The value of the `rowId` property.  `startAnalysis` initialises it to the
number `index + 2`, but `response[header] = row[i]` writes into the same
object, so a CSV column named `rowId` — such as the one this app's own export
emits — overwrites it with that column's cell (a string, or `undefined` past
a ragged row's end). -/
inductive RowIdValue where
  | num (n : Nat)
  | cell (v : Option String)
deriving DecidableEq

/-- A `SurveyResponse`: the `rowId` property plus the header-keyed row
fields.  Fields are kept in JS property insertion order; a value of `none` is
a stored `undefined` (a ragged row's missing trailing cell). -/
structure SurveyResponse where
  rowId : RowIdValue
  fields : List (String × Option String)
deriving DecidableEq

/-- `obj[k] = v` on a string-keyed JS object. -/
def setField (fs : List (String × Option String)) (k : String) (v : Option String) :
    List (String × Option String) :=
  if fs.any (fun p => p.1 == k) then fs.map (fun p => if p.1 == k then (k, v) else p)
  else fs ++ [(k, v)]

/-- `obj[k]` on a string-keyed JS object (`none` = `undefined`). -/
def lookupKey (fs : List (String × Option String)) (k : String) : Option String :=
  match fs.find? (fun p => p.1 == k) with
  | some p => p.2
  | none => none

/-- `response[header] = row[i]` on a survey record: a header named `rowId`
targets the same property as the assigned id (every header write lands in
the one object built by `startAnalysis`); any other header goes to the field
map. -/
def setProp (r : SurveyResponse) (k : String) (v : Option String) : SurveyResponse :=
  if k = "rowId" then { r with rowId := .cell v }
  else { r with fields := setField r.fields k v }

/-- One element of `dataToAnalyze` in `startAnalysis` (lines 194-200):
`{ rowId: index + 2 }` extended with `response[header] = row[i]` for each
header. -/
def mkSurveyResponse (headers row : List String) (rid : Nat) : SurveyResponse :=
  headers.enum.foldl (fun r p => setProp r p.2 (row.get? p.1))
    { rowId := .num rid, fields := [] }

/-- `dataToAnalyze`: the data rows turned into records, the `rowId` property
initialised to index + 2 (1-based physical line number plus 1, the header
being line 1) and overwritten when a header is itself named `rowId`. -/
def dataToAnalyze (headers : List String) (rows : List (List String)) :
    List SurveyResponse :=
  rows.enum.map (fun p => mkSurveyResponse headers p.2 (p.1 + 2))

/-- An `AnalysisResult`: the spread survey record plus the optional fields
written by `processItem`.  `analysis` holds exactly the object assigned by
`result.analysis = analysis` (always a classification unless the analyzer
returned an error object with an empty, hence falsy, message). -/
structure AnalysisResult where
  rowId : RowIdValue
  fields : List (String × Option String)
  date : Option Int := none
  analysis : Option AnalyzerOutput := none
  error : Option String := none
deriving DecidableEq

/-- The topics array reachable through `r.analysis`, as the `topicTree` loop
guard reads it (`!r.analysis || !r.analysis.topics`): `none` when the slot is
empty or holds the analyzer's error object, whose `topics` property is
`undefined` and hence falsy. -/
def analysisTopics (r : AnalysisResult) : Option (List String) :=
  match r.analysis with
  | some (.classification c) => some c.topics
  | _ => none

/-- The first topic of a record's classification (`none` otherwise): the
value `r.analysis?.topics[0]` yields on records where that expression does
not throw.  The expression itself, with its `TypeError` on an error-object
`analysis`, is `firstTopicE` below. -/
def firstTopic (r : AnalysisResult) : Option String := (analysisTopics r).bind List.head?

/-- Whether the `analysis` slot holds the analyzer's error object — the
state in which `r.analysis?.topics[0]` throws. -/
def analysisIsError (r : AnalysisResult) : Bool :=
  match r.analysis with
  | some (.errorObj _) => true
  | _ => false

/-- The expression `r.analysis?.topics[0]` of line 864: optional chaining
short-circuits a nullish `analysis` to `undefined`; on a classification the
chain reads the first topic; on the analyzer's error object the `topics`
property is `undefined`, and indexing `undefined` throws a `TypeError`,
modelled as the `error` branch. -/
def firstTopicE (r : AnalysisResult) : Except Unit (Option String) :=
  match r.analysis with
  | none => .ok none
  | some (.classification c) => .ok c.topics.head?
  | some (.errorObj _) => .error ()

/-! ## ClassificationQueue: `processAnalysisQueue` (lines 205-236) -/

/-- The inputs `processAnalysisQueue` closes over: the analyzer oracle (fed
`item[headers[textIndex]]`), the host date parser behind `parseDate`, the
headers, and the mapped column indices (`dateIndex` is `-1` when no date
column is mapped). -/
structure QueueCtx where
  analyzer : Option String → AnalyzerOutput
  generalParse : String → Option Int
  headers : List String
  textIndex : Nat
  dateIndex : Int

/-- `item[this.headers()[idx]]`. -/
def lookupHeaderField (item : SurveyResponse) (headers : List String) (idx : Nat) :
    Option String :=
  match headers.get? idx with
  | some h => lookupKey item.fields h
  | none => none

/-- `Math.round((processed / total) * 100)` over the exact rationals:
`floor(100·p/t + 1/2)`. -/
def jsRound100 (processed total : Nat) : Nat := (200 * processed + total) / (2 * total)

/-- `processItem` (lines 209-224): call the analyzer on the text column; if
the returned object's `error` property is truthy (a non-empty message) set
`error`, otherwise assign the returned object to `analysis`; if a date column
is mapped, set `date` from `parseDate`. -/
def processItem (ctx : QueueCtx) (item : SurveyResponse) : AnalysisResult :=
  let analysis := ctx.analyzer (lookupHeaderField item ctx.headers ctx.textIndex)
  let base : AnalysisResult := { rowId := item.rowId, fields := item.fields }
  let withOutcome :=
    match analysis with
    | .errorObj m =>
      if m ≠ "" then { base with error := some m }
      else { base with analysis := some analysis }
    | .classification _ => { base with analysis := some analysis }
  if ctx.dateIndex > -1 then
    { withOutcome with
      date :=
        match lookupHeaderField item ctx.headers ctx.dateIndex.toNat with
        | some s => parseDate ctx.generalParse s
        | none => none }
  else withOutcome

/-- The shared batch state of `processAnalysisQueue`: the accumulated
`analysisResults`, the `processedCount`, the current `analysisProgress`, and
the trace of all values emitted to `analysisProgress.set` so far. -/
structure QueueState where
  results : List AnalysisResult
  processedCount : Nat
  progress : Nat
  progressLog : List Nat
deriving DecidableEq

def initQueueState : QueueState :=
  { results := [], processedCount := 0, progress := 0, progressLog := [] }

/-- One iteration of the sequential `for (const item of queue)` loop:
process the item, bump the counter, emit progress, append the result. -/
def queueStep (ctx : QueueCtx) (total : Nat) (s : QueueState) (item : SurveyResponse) :
    QueueState :=
  let result := processItem ctx item
  let processed := s.processedCount + 1
  { results := s.results ++ [result]
    processedCount := processed
    progress := jsRound100 processed total
    progressLog := s.progressLog ++ [jsRound100 processed total] }

/-- Run the loop over `queue` starting from state `s` (the inter-item delay
has no effect on the data). -/
def runQueueFrom (ctx : QueueCtx) (total : Nat) (s : QueueState)
    (queue : List SurveyResponse) : QueueState :=
  queue.foldl (queueStep ctx total) s

/-- `processAnalysisQueue(queue, ...)` run to completion. -/
def runQueue (ctx : QueueCtx) (queue : List SurveyResponse) : QueueState :=
  runQueueFrom ctx queue.length initQueueState queue

/-! ## FilterEngine: `filteredAnalysisResults` (lines 767-789) -/

/-- The active `(dimension, value)` pairs of the `filters` object: entries
whose value is truthy and not the `'all'` sentinel. -/
def activeFilterPairs (filters : List (String × String)) : List (String × String) :=
  filters.filter (fun kv => kv.2 != "" && kv.2 != "all")

/-- The retention predicate of `filteredAnalysisResults`: every active
dimension matches exactly (`r[key] === activeFilters[key]`), and the date is
present and within each given bound. -/
def keepRecord (active : List (String × String)) (startDate endDate : Option Int)
    (r : AnalysisResult) : Bool :=
  let dimensionMatch := active.all (fun kv => lookupKey r.fields kv.1 == some kv.2)
  if !dimensionMatch then false
  else if (match startDate, r.date with
           | some _, none => true
           | some s, some d => d < s
           | none, _ => false) then false
  else if (match endDate, r.date with
           | some _, none => true
           | some e, some d => e < d
           | none, _ => false) then false
  else true

/-- `filteredAnalysisResults`: identity (the same list) when no filter and no
date bound is active, otherwise `results.filter`. -/
def filteredAnalysisResults (results : List AnalysisResult)
    (filters : List (String × String)) (startDate endDate : Option Int) :
    List AnalysisResult :=
  if activeFilterPairs filters = [] ∧ startDate = none ∧ endDate = none then results
  else results.filter (keepRecord (activeFilterPairs filters) startDate endDate)

/-! ## AggregationEngine: `getCounts` (lines 89-106) -/

/-- The field argument of `getCounts`. -/
inductive CountField where
  | sentiment
  | intent
  | topics
deriving DecidableEq

/-- The keys one record contributes to the `counts` object: each element of
`topics` independently, or the single `sentiment`/`intent` value when truthy;
nothing when `analysis` is absent (or is an error object, whose `topics` and
field reads are `undefined`). -/
def recordCountKeys (field : CountField) (r : AnalysisResult) : List String :=
  match r.analysis with
  | some (.classification c) =>
    match field with
    | .topics => c.topics
    | .sentiment => if c.sentiment = "" then [] else [c.sentiment]
    | .intent => if c.intent = "" then [] else [c.intent]
  | _ => []

/-- `counts[key] = (counts[key] || 0) + 1` on the insertion-ordered object. -/
def bumpCount (counts : List (String × Nat)) (k : String) : List (String × Nat) :=
  if counts.any (fun p => p.1 == k) then
    counts.map (fun p => if p.1 == k then (p.1, p.2 + 1) else p)
  else counts ++ [(k, 1)]

/-- The `counts` object after the `results.forEach` loop, as
`Object.entries` would list it (insertion order). -/
def tallyField (results : List AnalysisResult) (field : CountField) :
    List (String × Nat) :=
  results.foldl (fun acc r => (recordCountKeys field r).foldl bumpCount acc) []

/-- Stable insertion step for descending sort by `key` (an element is placed
before the first element it strictly beats, preserving the relative order of
ties). -/
def insertCountDesc {α : Type} (key : α → Nat) (x : α) : List α → List α
  | [] => [x]
  | y :: ys => if key x < key y then y :: insertCountDesc key x ys else x :: y :: ys

/-- `arr.sort((a, b) => b[1] - a[1])`: the unique stable descending sort. -/
def sortCountDesc {α : Type} (key : α → Nat) : List α → List α
  | [] => []
  | x :: xs => insertCountDesc key x (sortCountDesc key xs)

/-- `getCounts(results, field, slice?)`: tally, sort descending by count,
and, when `slice` is truthy (present and non-zero), truncate to the top
`slice` entries and reverse. -/
def getCounts (results : List AnalysisResult) (field : CountField)
    (slice : Option Nat) : List (String × Nat) :=
  let sorted := sortCountDesc (fun p => p.2) (tallyField results field)
  match slice with
  | some n => if n ≠ 0 then (sorted.take n).reverse else sorted
  | none => sorted

/-! ## AggregationEngine: `topicTree` (lines 837-866) -/

/-- The data of one node in the shared name-keyed lookup table `root`.  The
source builds every node in the single flat `root` object (the `currentLevel`
variable is never advanced), so a node is identified by its name and
`subTopics` stores child references as names. -/
structure TopicNodeData where
  count : Nat
  responses : List AnalysisResult
  subTopics : List String
  expanded : Bool
deriving DecidableEq

/-- The flat `root` lookup table, in insertion order. -/
abbrev TopicStore := List (String × TopicNodeData)

def storeGet (store : TopicStore) (name : String) : Option TopicNodeData :=
  match store.find? (fun p => p.1 == name) with
  | some p => some p.2
  | none => none

def storeSet (store : TopicStore) (name : String) (d : TopicNodeData) : TopicStore :=
  if store.any (fun p => p.1 == name) then
    store.map (fun p => if p.1 == name then (name, d) else p)
  else store ++ [(name, d)]

/-- On node creation: `parentNode.subTopics.push(node)` unless the parent
already lists a child of that name. -/
def registerChild (store : TopicStore) (parent : Option String) (name : String) :
    TopicStore :=
  match parent with
  | none => store
  | some p =>
    match storeGet store p with
    | some pd =>
      if name ∈ pd.subTopics then store
      else storeSet store p { pd with subTopics := pd.subTopics ++ [name] }
    | none => store

/-- The `r.analysis.topics.forEach` walk for one record: create the node on
first sight (registering it with its parent), then increment its count and
append the record, then descend with the node as parent. -/
def addTopicPath (r : AnalysisResult) : TopicStore → Option String → List String →
    TopicStore
  | store, _, [] => store
  | store, parent, name :: rest =>
    let store1 :=
      match storeGet store name with
      | some _ => store
      | none =>
        registerChild (storeSet store name { count := 0, responses := [], subTopics := [], expanded := false }) parent name
    let store2 :=
      match storeGet store1 name with
      | some nd =>
        storeSet store1 name
          { nd with count := nd.count + 1, responses := nd.responses ++ [r] }
      | none => store1
    addTopicPath r store2 (some name) rest

/-- The `results.forEach` loop of `topicTree`: records without an analysis or
with an absent or empty topics list are skipped. -/
def buildTopicStore (results : List AnalysisResult) : TopicStore :=
  results.foldl
    (fun store r =>
      match analysisTopics r with
      | some topics => if topics.isEmpty then store else addTopicPath r store none topics
      | none => store)
    []

/-- `new Set(...)` membership-tracking insertion: keep the first occurrence
of each element. -/
def firstDedupAux (seen : List String) : List String → List String
  | [] => []
  | x :: xs =>
    if x ∈ seen then firstDedupAux seen xs else x :: firstDedupAux (seen ++ [x]) xs

def firstDedup (l : List String) : List String := firstDedupAux [] l

/-- `filter(Boolean)` on a first-topic value: drops the falsy values
`undefined` and the empty string. -/
def truthyFirst (v : Option String) : Option String :=
  match v with
  | some t => if t = "" then none else some t
  | none => none

/-- `Array.from(new Set(results.map(r => r.analysis?.topics[0]).filter(Boolean)))`
on inputs where the map does not throw: the distinct first topics in
first-seen order, dropping the falsy values. -/
def topLevelTopicNames (results : List AnalysisResult) : List String :=
  firstDedup (results.filterMap (fun r => truthyFirst (firstTopic r)))

/-- The node list of the `topicTree` getter on inputs where the top-level
Set construction does not throw: look the top-level names up in the flat
store (dropping misses, as `filter(Boolean)` does) and sort by descending
count.  Nodes are returned as (name, data) pairs.  The getter as the program
computes it, `TypeError` included, is `topicTreeE` below. -/
def topicTree (results : List AnalysisResult) : List (String × TopicNodeData) :=
  let store := buildTopicStore results
  sortCountDesc (fun p => p.2.count)
    ((topLevelTopicNames results).filterMap (fun name =>
      match storeGet store name with
      | some d => some (name, d)
      | none => none))

/-- `results.map(r => r.analysis?.topics[0])`: the callback runs left to
right, and the first record whose `analysis` slot holds an error object
aborts the map with the thrown `TypeError`. -/
def mapFirstTopics : List AnalysisResult → Except Unit (List (Option String))
  | [] => .ok []
  | r :: rs =>
    match firstTopicE r with
    | .error e => .error e
    | .ok v =>
      match mapFirstTopics rs with
      | .error e => .error e
      | .ok vs => .ok (v :: vs)

/-- The `topicTree` getter (lines 837-866) as the program computes it.  The
`results.forEach` loop builds the flat `root` store first and cannot throw
(its guard skips any record without an array `topics`); the subsequent
top-level Set construction maps `r.analysis?.topics[0]` over the records and
throws a `TypeError` — the `error` branch — as soon as some record's
`analysis` slot holds the analyzer's error object.  Otherwise the looked-up
nodes, sorted by descending count, are returned. -/
def topicTreeE (results : List AnalysisResult) :
    Except Unit (List (String × TopicNodeData)) :=
  match mapFirstTopics results with
  | .error e => .error e
  | .ok firsts =>
    .ok (sortCountDesc (fun p => p.2.count)
      ((firstDedup (firsts.filterMap truthyFirst)).filterMap (fun name =>
        match storeGet (buildTopicStore results) name with
        | some d => some (name, d)
        | none => none)))

/-! ## AggregationEngine: `trendData` upfront filter (lines 871-874) -/

/-- The upfront exclusion of `trendData`:
`results.filter(r => !!r.date && !!r.analysis)` — only records with both a
date and an analysis object enter the bucketed tallies. -/
def trendIncluded (results : List AnalysisResult) : List AnalysisResult :=
  results.filter (fun r => r.date.isSome && r.analysis.isSome)

/-! ## Export path: `exportToCsv` (lines 338-375) -/

/-- The fixed classification column names appended to the original headers. -/
def analysisHeaderNames : List String :=
  ["sentiment", "sentiment_score", "intent", "emotions", "topics", "explanation",
    "confidence", "redacted_excerpt"]

/-- `res.analysis[ah]` for one classification column (`showNum` renders the
JS number `sentiment_score`). -/
def classificationCell (showNum : Rat → String) (c : Classification) (h : String) :
    CsvCell :=
  if h = "sentiment" then .strCell c.sentiment
  else if h = "sentiment_score" then .numCell (showNum c.sentiment_score)
  else if h = "intent" then .strCell c.intent
  else if h = "emotions" then .arrCell c.emotions
  else if h = "topics" then .arrCell c.topics
  else if h = "explanation" then .strCell c.explanation
  else if h = "confidence" then .numCell (toString c.confidence)
  else if h = "redacted_excerpt" then .strCell c.redacted_excerpt
  else .nullCell

/-- The classification cells of one row: `res.analysis ? res.analysis[ah] : ''`
(an error object in the `analysis` slot yields `undefined` for every column). -/
def analysisCells (showNum : Rat → String) (r : AnalysisResult) : List CsvCell :=
  match r.analysis with
  | some (.classification c) => analysisHeaderNames.map (classificationCell showNum c)
  | some (.errorObj _) => analysisHeaderNames.map (fun _ => CsvCell.nullCell)
  | none => analysisHeaderNames.map (fun _ => CsvCell.strCell "")

/-- `res[h]` for an original column. -/
def fieldCell (r : AnalysisResult) (h : String) : CsvCell :=
  match lookupKey r.fields h with
  | some v => .strCell v
  | none => .nullCell

/-- `res.rowId` as an export cell: the assigned number, or the cell value a
`rowId` header overwrote it with. -/
def rowIdCell : RowIdValue → CsvCell
  | .num n => .numCell (toString n)
  | .cell (some s) => .strCell s
  | .cell none => .nullCell

/-- `exportToCsv` (lines 338-365): `none` models the early `return` on an
empty filtered set (no CSV text is produced at all); otherwise the header
row followed by one escaped row per record. -/
def exportToCsv (showNum : Rat → String) (results : List AnalysisResult)
    (allHeaders : List String) : Option String :=
  if results.length = 0 then none
  else
    let headers := "rowId" :: allHeaders ++ analysisHeaderNames
    let headerRow := String.intercalate "," headers
    let dataRows := results.map (fun r =>
      let rowData := rowIdCell r.rowId ::
        (allHeaders.map (fieldCell r) ++ analysisCells showNum r)
      String.intercalate "," (rowData.map escapeCsvCell))
    some (String.intercalate "\n" (headerRow :: dataRows))

/-! ## Proof helpers and concrete fixtures -/

/-- The count recorded in the flat store for `name` (0 when absent). -/
def countOf (store : TopicStore) (name : String) : Nat :=
  match storeGet store name with
  | some d => d.count
  | none => 0

/-- The count recorded in the `counts` object for key `k` (0 when absent). -/
def countVal (counts : List (String × Nat)) (k : String) : Nat :=
  match counts.find? (fun p => p.1 == k) with
  | some p => p.2
  | none => 0

/-- A classification fixture with the given topic list. -/
def sampleClassification (topics : List String) : Classification :=
  { sentiment := "neutral", sentiment_score := 0, intent := "feedback", emotions := [],
    topics := topics, explanation := "", confidence := 80, redacted_excerpt := "" }

/-- A classified record fixture with the given topic list. -/
def topicRecord (rid : Nat) (topics : List String) : AnalysisResult :=
  { rowId := .num rid, fields := [],
    analysis := some (.classification (sampleClassification topics)) }

/-- A queue context whose analyzer always fails with a non-empty message and
with no date column mapped. -/
def errCtx : QueueCtx :=
  { analyzer := fun _ => .errorObj "boom", generalParse := fun _ => none,
    headers := ["text"], textIndex := 0, dateIndex := -1 }

/-- A queue context whose analyzer returns an error object with an empty
message (allowed by the `analyze(text) -> Classification | error`
interface: the catch block forwards a thrown bare string unchanged). -/
def emptyMsgCtx : QueueCtx :=
  { analyzer := fun _ => .errorObj "", generalParse := fun _ => none,
    headers := ["text"], textIndex := 0, dateIndex := -1 }

/-- A 200-record batch of trivial survey rows. -/
def queue200 : List SurveyResponse := List.replicate 200 { rowId := .num 0, fields := [] }

/-- Records whose topic lists are `[["A","X"],["A","Y"],["B"]]`
(the worked example of the `countBy` claim). -/
def countByExample : List AnalysisResult :=
  [topicRecord 2 ["A", "X"], topicRecord 3 ["A", "Y"], topicRecord 4 ["B"]]

/-- Records whose topic lists are `[["A"],["B","A"]]`: the name `A` occurs
both as a first topic and as a sub-topic. -/
def sharedNameExample : List AnalysisResult :=
  [topicRecord 2 ["A"], topicRecord 3 ["B", "A"]]

/-- Records whose sub-topic names are disjoint from all first topics. -/
def disjointTopicExample : List AnalysisResult :=
  [topicRecord 2 ["A", "X"], topicRecord 3 ["B"], topicRecord 4 ["A", "Y"]]

/-- A record that has a date but no classification (a per-item analyzer
failure on a batch with a mapped date column). -/
def datedErrorRecord : AnalysisResult :=
  { rowId := .num 2, fields := [], date := some 0, error := some "boom" }

/-- A record with one dimension field, for the filter witness. -/
def regionRecord : AnalysisResult :=
  { rowId := .num 2, fields := [("region", some "EU")], date := some 5 }

/-- A trivial survey row fixture. -/
def plainItem : SurveyResponse := { rowId := .num 2, fields := [] }

/-- A two-record batch of trivial survey rows. -/
def queue2 : List SurveyResponse := [plainItem, plainItem]

/-- A re-import context: the header row of this app's own export starts with
a `rowId` column. -/
def reimportCtx : QueueCtx :=
  { analyzer := fun _ => .errorObj "boom", generalParse := fun _ => none,
    headers := ["rowId", "feedback"], textIndex := 1, dateIndex := -1 }

/-- A record whose `analysis` slot holds the analyzer's error object (the
state the empty-message branch of `processItem` produces). -/
def crashRecord : AnalysisResult :=
  { rowId := .num 2, fields := [], analysis := some (.errorObj "") }

/-! ## Queue lemmas -/

theorem processItem_rowId (ctx : QueueCtx) (item : SurveyResponse) :
    (processItem ctx item).rowId = item.rowId := by
  unfold processItem
  dsimp only
  split <;> split <;> (try split) <;> rfl

theorem setProp_rowId (r : SurveyResponse) (k : String) (v : Option String)
    (hk : k ≠ "rowId") : (setProp r k v).rowId = r.rowId := by
  simp [setProp, hk]

theorem foldl_setProp_rowId (row : List String) (ps : List (Nat × String)) :
    ∀ r : SurveyResponse, (∀ p ∈ ps, p.2 ≠ "rowId") →
    (ps.foldl (fun r p => setProp r p.2 (row.get? p.1)) r).rowId = r.rowId := by
  induction ps with
  | nil => intro r _; rfl
  | cons q qs ih =>
    intro r h
    rw [List.foldl_cons, ih _ (fun p hp => h p (List.mem_cons_of_mem _ hp)),
      setProp_rowId _ _ _ (h q (List.mem_cons_self _ _))]

theorem mkSurveyResponse_rowId (headers row : List String) (rid : Nat)
    (h : "rowId" ∉ headers) :
    (mkSurveyResponse headers row rid).rowId = .num rid := by
  unfold mkSurveyResponse
  rw [foldl_setProp_rowId]
  intro p hp hk
  apply h
  have h2 : p.2 ∈ headers.enum.map Prod.snd := List.mem_map_of_mem Prod.snd hp
  rw [List.enum_map_snd] at h2
  rw [← hk]
  exact h2

theorem runQueueFrom_results (ctx : QueueCtx) (total : Nat)
    (queue : List SurveyResponse) : ∀ s : QueueState,
    (runQueueFrom ctx total s queue).results = s.results ++ queue.map (processItem ctx) := by
  induction queue with
  | nil => intro s; simp [runQueueFrom]
  | cons x q ih =>
    intro s
    simp only [runQueueFrom, List.foldl_cons, List.map_cons]
    rw [show List.foldl (queueStep ctx total) (queueStep ctx total s x) q
          = runQueueFrom ctx total (queueStep ctx total s x) q from rfl, ih]
    simp [queueStep]

theorem runQueue_results (ctx : QueueCtx) (queue : List SurveyResponse) :
    (runQueue ctx queue).results = queue.map (processItem ctx) := by
  rw [runQueue, runQueueFrom_results]
  rfl

theorem runQueueFrom_progressLog (ctx : QueueCtx) (total : Nat)
    (queue : List SurveyResponse) : ∀ s : QueueState,
    (runQueueFrom ctx total s queue).progressLog
      = s.progressLog
        ++ (List.range queue.length).map
             (fun k => jsRound100 (s.processedCount + (k + 1)) total) := by
  induction queue with
  | nil => intro s; simp [runQueueFrom]
  | cons x q ih =>
    intro s
    simp only [runQueueFrom, List.foldl_cons, List.length_cons]
    rw [show List.foldl (queueStep ctx total) (queueStep ctx total s x) q
          = runQueueFrom ctx total (queueStep ctx total s x) q from rfl, ih]
    simp [queueStep, List.range_succ_eq_map, List.map_map, Function.comp,
      Nat.add_assoc, Nat.add_comm, Nat.add_left_comm]

theorem runQueue_progressLog (ctx : QueueCtx) (queue : List SurveyResponse) :
    (runQueue ctx queue).progressLog
      = (List.range queue.length).map (fun k => jsRound100 (k + 1) queue.length) := by
  rw [runQueue, runQueueFrom_progressLog]
  simp [initQueueState]

/-! ## Rounding lemmas -/

theorem jsRound100_mono (total p q : Nat) (h : p ≤ q) :
    jsRound100 p total ≤ jsRound100 q total :=
  Nat.div_le_div_right (by omega)

theorem jsRound100_total (total : Nat) (h : 1 ≤ total) : jsRound100 total total = 100 := by
  unfold jsRound100
  apply Nat.div_eq_of_lt_le <;> omega

theorem jsRound100_lt_101 (total p : Nat) (h1 : 1 ≤ total) (h2 : p ≤ total) :
    jsRound100 p total < 101 := by
  unfold jsRound100
  rw [Nat.div_lt_iff_lt_mul (by omega)]
  omega

theorem jsRound100_eq_100_iff (total p : Nat) (h1 : 1 ≤ total) (h2 : p ≤ total) :
    jsRound100 p total = 100 ↔ 199 * total ≤ 200 * p := by
  constructor
  · intro h
    have : 100 ≤ jsRound100 p total := by omega
    rw [jsRound100, Nat.le_div_iff_mul_le (by omega : 0 < 2 * total)] at this
    omega
  · intro h
    have hlt := jsRound100_lt_101 total p h1 h2
    have : 100 ≤ jsRound100 p total := by
      rw [jsRound100, Nat.le_div_iff_mul_le (by omega : 0 < 2 * total)]
      omega
    omega

theorem jsRound100_lt_100 (total p : Nat) (hp : p < total) (hN : total ≤ 199) :
    jsRound100 p total < 100 := by
  unfold jsRound100
  rw [Nat.div_lt_iff_lt_mul (by omega)]
  omega

/-! ## Claim C1 -/

/-- C1 counterexample: `startAnalysis` writes every header's cell into the
same object that holds `rowId`, so on a CSV whose header row contains a
`rowId` column — which this app's own export produces, making re-import a
natural input — the assigned id index + 2 is overwritten by that column's
cell: the first result of the re-imported batch carries the cell string
`"2"`, not the assigned number 2. -/
theorem claim1_counterexample :
    ((runQueue reimportCtx
          (dataToAnalyze reimportCtx.headers [["2", "great"]])).results.get? 0).map
        AnalysisResult.rowId = some (.cell (some "2"))
    ∧ ((runQueue reimportCtx
          (dataToAnalyze reimportCtx.headers [["2", "great"]])).results.get? 0).map
        AnalysisResult.rowId ≠ some (.num 2) := by
  decide

/-- C1 amended: for any input rows fed through `startAnalysis` into the
classification queue, the accumulated result sequence has exactly the input
length upon completion, and it grows append-only, in input order, at every
step of the run; provided no CSV header is named `rowId`, the i-th result
carries the assigned rowId of the i-th input record, namely the number
i + 2. -/
theorem claim1_amended (ctx : QueueCtx) (rows : List (List String))
    (hrid : "rowId" ∉ ctx.headers) :
    ((runQueue ctx (dataToAnalyze ctx.headers rows)).results.length = rows.length)
    ∧ (∀ (k : Nat) (item : SurveyResponse),
        (dataToAnalyze ctx.headers rows).get? k = some item →
        (runQueueFrom ctx (dataToAnalyze ctx.headers rows).length initQueueState
            ((dataToAnalyze ctx.headers rows).take (k + 1))).results
          = (runQueueFrom ctx (dataToAnalyze ctx.headers rows).length initQueueState
                ((dataToAnalyze ctx.headers rows).take k)).results
            ++ [processItem ctx item])
    ∧ (∀ i : Nat, i < rows.length →
        ((runQueue ctx (dataToAnalyze ctx.headers rows)).results.get? i).map
            AnalysisResult.rowId = some (.num (i + 2))) := by
  refine ⟨?_, ?_, ?_⟩
  · rw [runQueue_results]
    simp [dataToAnalyze]
  · intro k item hk
    have hk2 : (dataToAnalyze ctx.headers rows)[k]? = some item := by
      rw [← List.get?_eq_getElem?]
      exact hk
    rw [runQueueFrom_results, runQueueFrom_results, List.take_succ, hk2]
    simp
  · intro i hi
    rw [runQueue_results, List.get?_map]
    have henum : (dataToAnalyze ctx.headers rows).get? i
        = (rows.get? i).map (fun row => mkSurveyResponse ctx.headers row (i + 2)) := by
      simp [dataToAnalyze, List.get?_map, List.get?_enum, Option.map_map]
      rfl
    rw [henum, List.get?_eq_get hi]
    simp [processItem_rowId, mkSurveyResponse_rowId _ _ _ hrid]

/-- Witness for C1 amended on a concrete two-row batch with no `rowId`
header. -/
theorem claim1_amended_witness :
    ((runQueue errCtx (dataToAnalyze errCtx.headers [["hello"], ["world"]])).results.length = 2)
    ∧ ((runQueue errCtx (dataToAnalyze errCtx.headers [["hello"], ["world"]])).results.get? 1).map
        AnalysisResult.rowId = some (.num 3) :=
  ⟨(claim1_amended errCtx [["hello"], ["world"]] (by decide)).1,
   (claim1_amended errCtx [["hello"], ["world"]] (by decide)).2.2 1 (by decide)⟩

/-! ## Claim C4 -/

set_option maxRecDepth 4000 in
/-- C4 counterexample: on a 200-record batch, the progress emitted after the
199th record is already `round(199/200*100) = round(99.5) = 100` although a
record is still unprocessed, contradicting "equals exactly 100 only after
the last item has completed". -/
theorem claim4_counterexample :
    (runQueue errCtx queue200).progressLog.getD 198 0 = 100
    ∧ 198 + 1 < queue200.length := by
  decide

/-- C4 amended: progress emissions are non-decreasing across the run and the
final emission is 100; an emission made while items remain unprocessed
equals 100 iff 199·total ≤ 200·processed (possible only for total ≥ 200); in
particular for batches of at most 199 records progress is 100 only after the
last item. -/
theorem claim4_amended (ctx : QueueCtx) (queue : List SurveyResponse)
    (hN : 1 ≤ queue.length) :
    ((runQueue ctx queue).progressLog.Pairwise (· ≤ ·))
    ∧ ((runQueue ctx queue).progressLog.getD (queue.length - 1) 0 = 100)
    ∧ (∀ i : Nat, i + 1 < queue.length →
        ((runQueue ctx queue).progressLog.getD i 0 = 100 ↔
            199 * queue.length ≤ 200 * (i + 1))
        ∧ (queue.length ≤ 199 → (runQueue ctx queue).progressLog.getD i 0 < 100)) := by
  rw [runQueue_progressLog]
  have hget : ∀ i : Nat, i < queue.length →
      ((List.range queue.length).map
          (fun k => jsRound100 (k + 1) queue.length)).getD i 0
        = jsRound100 (i + 1) queue.length := by
    intro i hi
    rw [List.getD_eq_getElem?_getD, List.getElem?_map, List.getElem?_range hi]
    rfl
  refine ⟨?_, ?_, ?_⟩
  · rw [List.pairwise_map]
    exact (List.pairwise_lt_range _).imp
      (fun h => jsRound100_mono _ _ _ (by omega))
  · rw [hget _ (by omega)]
    have : queue.length - 1 + 1 = queue.length := by omega
    rw [this, jsRound100_total _ hN]
  · intro i hi
    rw [hget _ (by omega)]
    exact ⟨jsRound100_eq_100_iff _ _ hN (by omega),
           fun h199 => jsRound100_lt_100 _ _ (by omega) h199⟩

/-- Witness for C4 amended on a concrete two-record batch. -/
theorem claim4_amended_witness :
    ((runQueue errCtx queue2).progressLog.getD (queue2.length - 1) 0 = 100)
    ∧ ((runQueue errCtx queue2).progressLog.getD 0 0 = 100 ↔
        199 * queue2.length ≤ 200 * (0 + 1)) :=
  ⟨(claim4_amended errCtx queue2 (by decide)).2.1,
   ((claim4_amended errCtx queue2 (by decide)).2.2 0 (by decide)).1⟩

/-! ## Claim C5 -/

/-- C5 counterexample: a record that has a date (but no classification,
e.g. a per-item analyzer failure on a batch with a mapped date column)
possesses one of the two attributes yet is excluded upfront by
`trendData`, contradicting "excluded if and only if it lacks both". -/
theorem claim5_counterexample :
    datedErrorRecord ∈ [datedErrorRecord]
    ∧ datedErrorRecord ∉ trendIncluded [datedErrorRecord]
    ∧ datedErrorRecord.date ≠ none := by
  decide

/-- C5 amended: the trend aggregation includes a record upfront iff the
record has BOTH a date and a classification; it excludes a record iff the
record lacks a date or lacks a classification. -/
theorem claim5_amended (results : List AnalysisResult) (r : AnalysisResult) :
    r ∈ trendIncluded results ↔
      r ∈ results ∧ r.date.isSome = true ∧ r.analysis.isSome = true := by
  simp [trendIncluded, List.mem_filter, and_assoc]

/-- Witness for C5 amended at a concrete record. -/
theorem claim5_amended_witness :
    datedErrorRecord ∈ trendIncluded [datedErrorRecord] ↔
      datedErrorRecord ∈ [datedErrorRecord]
      ∧ datedErrorRecord.date.isSome = true
      ∧ datedErrorRecord.analysis.isSome = true :=
  claim5_amended [datedErrorRecord] datedErrorRecord

/-! ## Claim C9 -/

/-- C9 counterexample: when the analyzer returns an error value whose
message is the empty string (permitted by the `Classification | error`
interface and produced, e.g., for a thrown bare empty string), the falsy
`analysis.error` check stores the error object in the `analysis` slot: the
record does NOT carry the error marker, contradicting "the record carries
only the error marker". -/
theorem claim9_counterexample :
    (processItem emptyMsgCtx plainItem).error = none
    ∧ (processItem emptyMsgCtx plainItem).analysis = some (.errorObj "") := by
  decide

/-- C9 amended: at most one of the `analysis` and `error` fields is ever
populated — never both; when the analyzer returns an error value with a
non-empty message the record carries only the error marker; and every
record, error or not, is appended in order and the batch continues (the
final result list is the map of `processItem` over the whole queue). -/
theorem claim9_amended (ctx : QueueCtx) :
    (∀ item : SurveyResponse,
        (processItem ctx item).analysis = none ∨ (processItem ctx item).error = none)
    ∧ (∀ (item : SurveyResponse) (m : String), m ≠ "" →
        ctx.analyzer (lookupHeaderField item ctx.headers ctx.textIndex) = .errorObj m →
        (processItem ctx item).error = some m ∧ (processItem ctx item).analysis = none)
    ∧ (∀ queue : List SurveyResponse,
        (runQueue ctx queue).results = queue.map (processItem ctx)) := by
  refine ⟨?_, ?_, fun queue => runQueue_results ctx queue⟩
  · intro item
    unfold processItem
    dsimp only
    split <;> split <;> (try split) <;> simp
  · intro item m hm hout
    unfold processItem
    dsimp only
    rw [hout]
    dsimp only
    rw [if_pos hm]
    split <;> simp

/-- Witness for C9 amended: a concrete failing record is retained with only
the error marker, and a concrete batch maps through in order. -/
theorem claim9_amended_witness :
    ((processItem errCtx plainItem).error = some "boom"
      ∧ (processItem errCtx plainItem).analysis = none)
    ∧ (runQueue errCtx [plainItem]).results = [plainItem].map (processItem errCtx) :=
  ⟨(claim9_amended errCtx).2.1 plainItem "boom" (by decide) rfl,
   (claim9_amended errCtx).2.2 [plainItem]⟩

/-! ## Claim C10 -/

/-- C10: when the filtered record set is empty, `exportToCsv` returns
immediately and produces no CSV text at all — not even the fixed header
row. -/
theorem claim10_export_empty (showNum : Rat → String) (allHeaders : List String) :
    exportToCsv showNum [] allHeaders = none := rfl

/-! ## Claim C7 -/

theorem keepRecord_iff (active : List (String × String)) (startDate endDate : Option Int)
    (r : AnalysisResult) :
    keepRecord active startDate endDate r = true ↔
      (∀ kv ∈ active, lookupKey r.fields kv.1 = some kv.2)
      ∧ (∀ s : Int, startDate = some s → ∃ d : Int, r.date = some d ∧ s ≤ d)
      ∧ (∀ e : Int, endDate = some e → ∃ d : Int, r.date = some d ∧ d ≤ e) := by
  unfold keepRecord
  cases startDate <;> cases endDate <;> cases hd : r.date <;>
    simp [List.all_eq_true, hd]

/-- C7: a record passes `filteredAnalysisResults` iff it is one of the input
records, its field for every active (dimension, value) pair equals the value
exactly, and, for each present date bound, it has a date within the bound;
retained records keep their relative order (the output is a sublist of the
input). -/
theorem claim7_filter (results : List AnalysisResult) (filters : List (String × String))
    (startDate endDate : Option Int) :
    ((filteredAnalysisResults results filters startDate endDate).Sublist results)
    ∧ (∀ r : AnalysisResult,
        r ∈ filteredAnalysisResults results filters startDate endDate ↔
          r ∈ results
          ∧ (∀ kv ∈ activeFilterPairs filters, lookupKey r.fields kv.1 = some kv.2)
          ∧ (∀ s : Int, startDate = some s → ∃ d : Int, r.date = some d ∧ s ≤ d)
          ∧ (∀ e : Int, endDate = some e → ∃ d : Int, r.date = some d ∧ d ≤ e)) := by
  unfold filteredAnalysisResults
  split
  case isTrue h =>
    obtain ⟨h1, h2, h3⟩ := h
    subst h2
    subst h3
    refine ⟨List.Sublist.refl _, fun r => ?_⟩
    rw [h1]
    simp
  case isFalse h =>
    refine ⟨List.filter_sublist _, fun r => ?_⟩
    rw [List.mem_filter, keepRecord_iff]

/-- Witness for C7: a concrete record passes a concrete dimension filter
with a concrete date range. -/
theorem claim7_filter_witness :
    regionRecord ∈ filteredAnalysisResults [regionRecord] [("region", "EU")]
      (some 0) (some 10) :=
  ((claim7_filter [regionRecord] [("region", "EU")] (some 0) (some 10)).2
      regionRecord).mpr
    ⟨by decide, by decide, fun s hs => ⟨5, rfl, by cases hs; decide⟩,
     fun e he => ⟨5, rfl, by cases he; decide⟩⟩

/-! ## Sorting lemmas -/

theorem insertCountDesc_perm {α : Type} (key : α → Nat) (x : α) (l : List α) :
    (insertCountDesc key x l).Perm (x :: l) := by
  induction l with
  | nil => exact List.Perm.refl _
  | cons y ys ih =>
    unfold insertCountDesc
    split
    · exact (ih.cons y).trans (List.Perm.swap x y ys)
    · exact List.Perm.refl _

theorem sortCountDesc_perm {α : Type} (key : α → Nat) (l : List α) :
    (sortCountDesc key l).Perm l := by
  induction l with
  | nil => exact List.Perm.refl _
  | cons x xs ih =>
    exact (insertCountDesc_perm key x (sortCountDesc key xs)).trans (ih.cons x)

theorem mem_insertCountDesc {α : Type} (key : α → Nat) (x : α) (l : List α) (z : α)
    (h : z ∈ insertCountDesc key x l) : z = x ∨ z ∈ l := by
  have := (insertCountDesc_perm key x l).mem_iff.mp h
  simpa using this

theorem insertCountDesc_sorted {α : Type} (key : α → Nat) (x : α) (l : List α)
    (h : l.Pairwise (fun a b => key b ≤ key a)) :
    (insertCountDesc key x l).Pairwise (fun a b => key b ≤ key a) := by
  induction l with
  | nil => simp [insertCountDesc]
  | cons y ys ih =>
    rw [List.pairwise_cons] at h
    unfold insertCountDesc
    split
    case isTrue hlt =>
      rw [List.pairwise_cons]
      refine ⟨fun z hz => ?_, ih h.2⟩
      rcases mem_insertCountDesc key x ys z hz with rfl | hmem
      · omega
      · exact h.1 z hmem
    case isFalse hge =>
      rw [List.pairwise_cons]
      refine ⟨fun z hz => ?_, List.pairwise_cons.mpr h⟩
      rcases List.mem_cons.mp hz with rfl | hmem
      · omega
      · have := h.1 z hmem
        omega

theorem sortCountDesc_sorted {α : Type} (key : α → Nat) (l : List α) :
    (sortCountDesc key l).Pairwise (fun a b => key b ≤ key a) := by
  induction l with
  | nil => simp [sortCountDesc]
  | cons x xs ih => exact insertCountDesc_sorted key x _ ih

/-! ## Tally lemmas -/

theorem bump_pred_comp (k j : String) :
    ((fun p : String × Nat => p.1 == j) ∘
        fun p : String × Nat => if p.1 == k then (p.1, p.2 + 1) else p)
      = fun p : String × Nat => p.1 == j := by
  funext q
  by_cases hq : q.1 = k <;> simp [hq]

theorem countVal_bumpCount_self (counts : List (String × Nat)) (k : String) :
    countVal (bumpCount counts k) k = countVal counts k + 1 := by
  unfold bumpCount
  split
  case isTrue ha =>
    unfold countVal
    rw [List.find?_map, bump_pred_comp]
    obtain ⟨q, hq_mem, hq⟩ := List.any_eq_true.mp ha
    have hsome : (counts.find? fun p => p.1 == k).isSome := by
      rw [List.find?_isSome]
      exact ⟨q, hq_mem, hq⟩
    obtain ⟨w, hw⟩ := Option.isSome_iff_exists.mp hsome
    have hwk : w.1 = k := by simpa using List.find?_some hw
    rw [hw]
    simp [hwk]
  case isFalse ha =>
    unfold countVal
    have hnone : counts.find? (fun p => p.1 == k) = none :=
      List.find?_eq_none.mpr fun x hx hpx => ha (List.any_eq_true.mpr ⟨x, hx, hpx⟩)
    rw [List.find?_append, hnone]
    simp

theorem countVal_bumpCount_ne (counts : List (String × Nat)) (k j : String)
    (hne : j ≠ k) : countVal (bumpCount counts k) j = countVal counts j := by
  unfold bumpCount
  split
  case isTrue ha =>
    unfold countVal
    rw [List.find?_map, bump_pred_comp]
    cases hw : counts.find? (fun p => p.1 == j) with
    | none => simp
    | some w =>
      have hwj : w.1 = j := by simpa using List.find?_some hw
      have hwk : ¬(w.1 = k) := by rw [hwj]; exact hne
      simp [hwk]
  case isFalse ha =>
    unfold countVal
    rw [List.find?_append]
    have h2 : ([((k : String), (1 : Nat))].find? fun p => p.1 == j) = none := by
      simp only [List.find?_singleton]
      rw [if_neg]
      simp
      exact fun h => hne h.symm
    rw [h2]
    cases counts.find? (fun p => p.1 == j) <;> simp

theorem countVal_foldl_bump (keys : List String) (k : String) :
    ∀ acc : List (String × Nat),
    countVal (keys.foldl bumpCount acc) k = countVal acc k + keys.count k := by
  induction keys with
  | nil => intro acc; simp
  | cons x xs ih =>
    intro acc
    rw [List.foldl_cons, ih]
    by_cases hx : x = k
    · subst hx
      rw [countVal_bumpCount_self, List.count_cons_self]
      omega
    · rw [countVal_bumpCount_ne _ _ _ fun h => hx h.symm,
        List.count_cons_of_ne fun h => hx h.symm]

theorem countVal_tallyField (results : List AnalysisResult) (field : CountField)
    (k : String) :
    countVal (tallyField results field) k
      = ((results.map (recordCountKeys field)).flatten).count k := by
  suffices h : ∀ acc : List (String × Nat),
      countVal (results.foldl
          (fun acc r => (recordCountKeys field r).foldl bumpCount acc) acc) k
        = countVal acc k + ((results.map (recordCountKeys field)).flatten).count k by
    simpa [tallyField, countVal] using h []
  induction results with
  | nil => intro acc; simp
  | cons r rs ih =>
    intro acc
    rw [List.foldl_cons, ih, countVal_foldl_bump, List.map_cons, List.flatten_cons,
      List.count_append]
    omega

theorem bumpCount_keys (counts : List (String × Nat)) (k : String) :
    (bumpCount counts k).map Prod.fst
      = if counts.any (fun p => p.1 == k) then counts.map Prod.fst
        else counts.map Prod.fst ++ [k] := by
  unfold bumpCount
  split
  case isTrue ha =>
    rw [List.map_map]
    apply List.map_congr_left
    intro q _
    by_cases hq : q.1 = k <;> simp [hq]
  case isFalse ha =>
    simp

theorem bumpCount_keys_nodup (counts : List (String × Nat)) (k : String)
    (h : (counts.map Prod.fst).Nodup) : ((bumpCount counts k).map Prod.fst).Nodup := by
  rw [bumpCount_keys]
  split
  · exact h
  case isFalse ha =>
    rw [List.nodup_append]
    refine ⟨h, List.nodup_singleton k, ?_⟩
    intro a hmem
    simp only [List.mem_singleton]
    intro hak
    subst hak
    obtain ⟨p, hp_mem, hp⟩ := List.mem_map.mp hmem
    exact ha (List.any_eq_true.mpr ⟨p, hp_mem, by simp [hp]⟩)

theorem countVal_of_mem (counts : List (String × Nat)) (k : String) (n : Nat)
    (hnd : (counts.map Prod.fst).Nodup) (hmem : (k, n) ∈ counts) :
    countVal counts k = n := by
  induction counts with
  | nil => cases hmem
  | cons p rest ih =>
    rw [List.map_cons, List.nodup_cons] at hnd
    rcases List.mem_cons.mp hmem with heq | hmem2
    · rw [← heq]
      simp [countVal]
    · have hp : ¬(p.1 == k) = true := by
        intro hc
        have hpk : p.1 = k := by simpa using hc
        exact hnd.1 (hpk ▸ List.mem_map.mpr ⟨(k, n), hmem2, rfl⟩)
      unfold countVal
      rw [List.find?_cons]
      have hp2 : (p.1 == k) = false := by simpa using hp
      rw [hp2]
      exact ih hnd.2 hmem2

theorem foldl_bump_keys_nodup (keys : List String) :
    ∀ acc : List (String × Nat), (acc.map Prod.fst).Nodup →
    ((keys.foldl bumpCount acc).map Prod.fst).Nodup := by
  induction keys with
  | nil => intro acc h; exact h
  | cons x xs ih => intro acc h; exact ih _ (bumpCount_keys_nodup _ _ h)

theorem tallyField_keys_nodup (results : List AnalysisResult) (field : CountField) :
    ((tallyField results field).map Prod.fst).Nodup := by
  suffices h : ∀ acc : List (String × Nat), (acc.map Prod.fst).Nodup →
      ((results.foldl
          (fun acc r => (recordCountKeys field r).foldl bumpCount acc) acc).map
        Prod.fst).Nodup by
    exact h [] (by simp)
  induction results with
  | nil => intro acc h; exact h
  | cons r rs ih => intro acc h; exact ih _ (foldl_bump_keys_nodup _ _ h)

/-! ## Claim C6 -/

/-- C6 counterexample: over records with topic lists
`[["A","X"],["A","Y"],["B"]]`, `getCounts` yields
`[(A,2),(X,1),(Y,1),(B,1)]` — stable descending sort keeps ties in
first-seen key order (A, X, Y, B), so `(B,1)` comes last, not second as the
claim's example states. -/
theorem claim6_counterexample :
    getCounts countByExample .topics none = [("A", 2), ("X", 1), ("Y", 1), ("B", 1)]
    ∧ getCounts countByExample .topics none ≠ [("A", 2), ("B", 1), ("X", 1), ("Y", 1)] := by
  decide

/-- C6 amended: `countBy` returns (value, count) pairs sorted descending by
count with ties in first-seen order and each element of a record's topics
list contributing independently: over `[["A","X"],["A","Y"],["B"]]` it
yields `[(A,2),(X,1),(Y,1),(B,1)]`; every returned count is the number of
occurrences of its key; and a truthy (non-zero) `topN` truncates to the top
N entries and reverses to ascending order. -/
theorem claim6_amended :
    (getCounts countByExample .topics none = [("A", 2), ("X", 1), ("Y", 1), ("B", 1)])
    ∧ (∀ (results : List AnalysisResult) (field : CountField) (n : Nat), n ≠ 0 →
        getCounts results field (some n) = ((getCounts results field none).take n).reverse)
    ∧ (∀ (results : List AnalysisResult) (field : CountField),
        (getCounts results field none).Pairwise (fun a b => b.2 ≤ a.2))
    ∧ (∀ (results : List AnalysisResult) (field : CountField) (k : String) (n : Nat),
        (k, n) ∈ getCounts results field none →
        n = ((results.map (recordCountKeys field)).flatten).count k) := by
  refine ⟨by decide, ?_, ?_, ?_⟩
  · intro results field n hn
    simp [getCounts, hn]
  · intro results field
    exact sortCountDesc_sorted _ _
  · intro results field k n hmem
    have hmem2 : (k, n) ∈ tallyField results field :=
      (sortCountDesc_perm (fun p => p.2) (tallyField results field)).mem_iff.mp
        (by simpa [getCounts] using hmem)
    rw [← countVal_tallyField]
    exact (countVal_of_mem _ _ _ (tallyField_keys_nodup results field) hmem2).symm

/-- Witness for C6 amended at concrete inputs. -/
theorem claim6_amended_witness :
    (getCounts countByExample .topics (some 2)
      = ((getCounts countByExample .topics none).take 2).reverse)
    ∧ 2 = ((countByExample.map (recordCountKeys .topics)).flatten).count "A" :=
  ⟨claim6_amended.2.1 countByExample .topics 2 (by decide),
   claim6_amended.2.2.2 countByExample .topics "A" 2 (by decide)⟩

/-! ## CSV round-trip lemmas -/

theorem doubleQuotes_cons_ne (x : Char) (rest : List Char) (hx : x ≠ '"') :
    doubleQuotes (x :: rest) = x :: doubleQuotes rest := by
  simp [doubleQuotes, hx]

theorem mem_doubleQuotes (c : Char) (s : List Char) (h : c ∈ doubleQuotes s) :
    c ∈ s ∨ c = '"' := by
  induction s with
  | nil => simp [doubleQuotes] at h
  | cons x t ih =>
    by_cases hx : x = '"'
    · subst hx
      rw [show doubleQuotes ('"' :: t) = '"' :: '"' :: doubleQuotes t from rfl] at h
      rcases List.mem_cons.mp h with e | h2
      · exact Or.inr e
      rcases List.mem_cons.mp h2 with e | h3
      · exact Or.inr e
      · rcases ih h3 with h4 | h4
        · exact Or.inl (List.mem_cons_of_mem _ h4)
        · exact Or.inr h4
    · rw [doubleQuotes_cons_ne x t hx] at h
      rcases List.mem_cons.mp h with e | h2
      · exact Or.inl (e ▸ List.mem_cons_self _ _)
      · rcases ih h2 with h4 | h4
        · exact Or.inl (List.mem_cons_of_mem _ h4)
        · exact Or.inr h4

theorem splitLines_cons_ne (x : Char) (rest : List Char) (hx : x ≠ '\n')
    (hx2 : ¬(x = '\r' ∧ rest.head? = some '\n')) :
    splitLines (x :: rest)
      = match splitLines rest with
        | [] => [[x]]
        | l :: ls => (x :: l) :: ls := by
  rw [splitLines.eq_def]
  split <;> simp_all

theorem splitLines_no_newline (l : List Char) (h : '\n' ∉ l) : splitLines l = [l] := by
  induction l with
  | nil => rfl
  | cons c rest ih =>
    have hc : c ≠ '\n' := fun e => h (by rw [e]; exact List.mem_cons_self _ _)
    have hr : '\n' ∉ rest := fun m => h (List.mem_cons_of_mem _ m)
    have hx2 : ¬(c = '\r' ∧ rest.head? = some '\n') := by
      rintro ⟨-, hh⟩
      apply hr
      cases rest with
      | nil => cases hh
      | cons y ys =>
        have : y = '\n' := by simpa using hh
        rw [this]
        exact List.mem_cons_self _ _
    rw [splitLines_cons_ne c rest hc hx2, ih hr]

theorem jsTrim_ne_nil (l : List Char) (c : Char) (hc : c ∈ l) (hw : isJsWs c = false) :
    jsTrim l ≠ [] := by
  intro h
  unfold jsTrim at h
  rw [List.reverse_eq_nil_iff, List.dropWhile_eq_nil_iff] at h
  have h2 : ∀ x ∈ l.dropWhile isJsWs, isJsWs x = true := by
    intro x hx
    exact h x (List.mem_reverse.mpr hx)
  have hsplit : l.takeWhile isJsWs ++ l.dropWhile isJsWs = l :=
    List.takeWhile_append_dropWhile isJsWs l
  have h3 : ∀ x ∈ l, isJsWs x = true := by
    intro x hx
    rw [← hsplit] at hx
    rcases List.mem_append.mp hx with h4 | h4
    · exact List.mem_takeWhile_imp h4
    · exact h2 x h4
  rw [h3 c hc] at hw
  cases hw

theorem parseLineAux_quoted (s : List Char) : ∀ (cur : List Char) (fields : List String),
    parseLineAux true cur (doubleQuotes s ++ ['"']) fields
      = fields ++ [String.mk (jsTrim (cur ++ s))] := by
  induction s with
  | nil =>
    intro cur fields
    simp [doubleQuotes, parseLineAux]
  | cons c t ih =>
    intro cur fields
    by_cases hc : c = '"'
    · subst hc
      rw [show doubleQuotes ('"' :: t) ++ ['"']
            = '"' :: '"' :: (doubleQuotes t ++ ['"']) from rfl]
      rw [show parseLineAux true cur ('"' :: '"' :: (doubleQuotes t ++ ['"'])) fields
            = parseLineAux true (cur ++ ['"']) (doubleQuotes t ++ ['"']) fields from rfl]
      rw [ih (cur ++ ['"']) fields]
      simp
    · rw [doubleQuotes_cons_ne c t hc, List.cons_append]
      cases h2 : doubleQuotes t ++ ['"'] with
      | nil => exact absurd h2 (by simp)
      | cons c2 r2 =>
        have step : parseLineAux true cur (c :: c2 :: r2) fields
            = parseLineAux true (cur ++ [c]) (c2 :: r2) fields := by
          simp [parseLineAux, hc]
        rw [step, ← h2, ih (cur ++ [c]) fields]
        simp

/-! ## Claim C3 -/

/-- C3 counterexample: for `S = "a\nb"` (which contains a newline and is
therefore quoted by `escapeCsvCell`), `parseCsv` first splits the text on
line endings — including the quoted newline — so the round trip yields two
one-field rows `[["a"], ["b"]]`, not `S` back. -/
theorem claim3_counterexample :
    parseCsv (escapeCsvCell (.strCell "a\nb")) = [["a"], ["b"]]
    ∧ parseCsv (escapeCsvCell (.strCell "a\nb")) ≠ [["a\nb"]] := by
  decide

/-- C3 amended: for every string S that contains a comma or a double quote,
contains no newline, and is unchanged by trimming (parseCsv trims every
field on emission), serializing S as a single CSV field and parsing the
result back yields exactly S: `parseCsv (escapeCsvCell S) = [[S]]`. -/
theorem claim3_amended (S : String)
    (hmem : ',' ∈ S.data ∨ '"' ∈ S.data)
    (hnl : '\n' ∉ S.data)
    (htrim : jsTrim S.data = S.data) :
    parseCsv (escapeCsvCell (.strCell S)) = [[S]] := by
  have hq : needsQuoting S = true := by
    unfold needsQuoting
    rcases hmem with h | h <;> simp [h]
  have hesc : escapeCsvCell (.strCell S)
      = String.mk ('"' :: (doubleQuotes S.data ++ ['"'])) := by
    unfold escapeCsvCell
    simp only [cellString, hq, if_true]
  rw [hesc]
  unfold parseCsv
  have hnl2 : '\n' ∉ ('"' :: (doubleQuotes S.data ++ ['"'])) := by
    intro hmem2
    rcases List.mem_cons.mp hmem2 with e | hmem3
    · exact absurd e (by decide)
    rcases List.mem_append.mp hmem3 with h4 | h4
    · rcases mem_doubleQuotes _ _ h4 with h5 | h5
      · exact hnl h5
      · exact absurd h5 (by decide)
    · simp at h4
  have hdata : (String.mk ('"' :: (doubleQuotes S.data ++ ['"']))).data
      = '"' :: (doubleQuotes S.data ++ ['"']) := rfl
  rw [hdata, splitLines_no_newline _ hnl2]
  have hne : jsTrim ('"' :: (doubleQuotes S.data ++ ['"'])) ≠ [] :=
    jsTrim_ne_nil _ '"' (List.mem_cons_self _ _) (by decide)
  have hkeep : (!(jsTrim ('"' :: (doubleQuotes S.data ++ ['"']))).isEmpty) = true := by
    cases hE : (jsTrim ('"' :: (doubleQuotes S.data ++ ['"']))).isEmpty
    · rfl
    · exact absurd (List.isEmpty_iff.mp hE) hne
  rw [List.filter_cons]
  rw [hkeep]
  simp only [if_true, List.filter_nil, List.map_cons, List.map_nil]
  unfold parseLine
  rw [show parseLineAux false [] ('"' :: (doubleQuotes S.data ++ ['"'])) []
        = parseLineAux true [] (doubleQuotes S.data ++ ['"']) [] from rfl]
  rw [parseLineAux_quoted]
  simp only [List.nil_append]
  rw [htrim]

/-- Witness for C3 amended at `S = "a,b"`. -/
theorem claim3_amended_witness :
    parseCsv (escapeCsvCell (.strCell "a,b")) = [["a,b"]] :=
  claim3_amended "a,b" (Or.inl (by decide)) (by decide) (by decide)

/-! ## Date-pattern lemmas -/

theorem takeDigits_spec : ∀ (n : Nat) (l ds rest : List Char),
    takeDigits n l = some (ds, rest) →
    ds.length = n ∧ ∀ c ∈ ds, isDigitCh c = true := by
  intro n
  induction n with
  | zero =>
    intro l ds rest h
    simp [takeDigits] at h
    obtain ⟨h1, h2⟩ := h
    subst h1
    exact ⟨rfl, by simp⟩
  | succ m ih =>
    intro l ds rest h
    cases l with
    | nil => simp [takeDigits] at h
    | cons c cs =>
      unfold takeDigits at h
      by_cases hc : isDigitCh c = true
      · rw [if_pos hc] at h
        cases htd : takeDigits m cs with
        | none => rw [htd] at h; cases h
        | some p =>
          obtain ⟨ds2, rest2⟩ := p
          rw [htd] at h
          dsimp only at h
          have hds : c :: ds2 = ds ∧ rest2 = rest := by
            constructor <;> [exact congrArg Prod.fst (Option.some.inj h);
              exact congrArg Prod.snd (Option.some.inj h)]
          obtain ⟨hlen, hall⟩ := ih cs ds2 rest2 htd
          rw [← hds.1]
          refine ⟨by simp [hlen], ?_⟩
          intro x hx
          rcases List.mem_cons.mp hx with rfl | hx2
          · exact hc
          · exact hall x hx2
      · rw [if_neg hc] at h
        cases h

theorem digitsToNat_aux_lt (ds : List Char) : ∀ acc : Nat,
    (∀ c ∈ ds, isDigitCh c = true) →
    ds.foldl (fun acc c => 10 * acc + (c.toNat - 48)) acc < (acc + 1) * 10 ^ ds.length := by
  induction ds with
  | nil => intro acc _; simp
  | cons c cs ih =>
    intro acc h
    rw [List.foldl_cons]
    have hc : c.toNat - 48 ≤ 9 := by
      have h2 := h c (List.mem_cons_self _ _)
      unfold isDigitCh at h2
      simp at h2
      omega
    have h3 := ih (10 * acc + (c.toNat - 48)) (fun x hx => h x (List.mem_cons_of_mem _ hx))
    have h4 : (10 * acc + (c.toNat - 48) + 1) * 10 ^ cs.length
        ≤ (acc + 1) * 10 ^ (c :: cs).length := by
      rw [List.length_cons, pow_succ]
      calc (10 * acc + (c.toNat - 48) + 1) * 10 ^ cs.length
          ≤ ((acc + 1) * 10) * 10 ^ cs.length :=
            Nat.mul_le_mul_right _ (by omega)
        _ = (acc + 1) * (10 ^ cs.length * 10) := by ring
    omega

theorem digitsToNat_lt (ds : List Char) (h : ∀ c ∈ ds, isDigitCh c = true) :
    digitsToNat ds < 10 ^ ds.length := by
  have h2 := digitsToNat_aux_lt ds 0 h
  simpa [digitsToNat] using h2

theorem digits_bound (n : Nat) (l ds rest : List Char) (hn : n ≤ 2)
    (h : takeDigits n l = some (ds, rest)) : digitsToNat ds < 100 := by
  obtain ⟨hlen, hall⟩ := takeDigits_spec n l ds rest h
  have h2 := digitsToNat_lt ds hall
  rw [hlen] at h2
  calc digitsToNat ds < 10 ^ n := h2
    _ ≤ 10 ^ 2 := Nat.pow_le_pow_right (by omega) hn
    _ = 100 := by norm_num

theorem matchWith_bounds (n1 n2 : Nat) (l : List Char) (a b y : Nat)
    (h1 : n1 ≤ 2) (h2 : n2 ≤ 2) (h : matchWith n1 n2 l = some (a, b, y)) :
    a < 100 ∧ b < 100 ∧ y < 10000 := by
  unfold matchWith at h
  cases htd1 : takeDigits n1 l with
  | none => rw [htd1] at h; cases h
  | some p1 =>
    obtain ⟨d1, r1⟩ := p1
    rw [htd1] at h
    dsimp only at h
    cases r1 with
    | nil => cases h
    | cons s1 r2 =>
      dsimp only at h
      by_cases hs1 : isSep s1 = true
      · rw [if_pos hs1] at h
        cases htd2 : takeDigits n2 r2 with
        | none => rw [htd2] at h; cases h
        | some p2 =>
          obtain ⟨d2, r3⟩ := p2
          rw [htd2] at h
          dsimp only at h
          cases r3 with
          | nil => cases h
          | cons s2 r4 =>
            dsimp only at h
            by_cases hs2 : isSep s2 = true
            · rw [if_pos hs2] at h
              cases htd3 : takeDigits 4 r4 with
              | none => rw [htd3] at h; cases h
              | some p3 =>
                obtain ⟨d3, r5⟩ := p3
                rw [htd3] at h
                dsimp only at h
                have he : digitsToNat d1 = a ∧ digitsToNat d2 = b ∧ digitsToNat d3 = y := by
                  have h5 := Option.some.inj h
                  exact ⟨congrArg (fun q => q.1) h5,
                    congrArg (fun q => q.2.1) h5, congrArg (fun q => q.2.2) h5⟩
                obtain ⟨ha, hb, hy⟩ := he
                subst ha
                subst hb
                subst hy
                refine ⟨digits_bound n1 l d1 _ h1 htd1, digits_bound n2 r2 d2 _ h2 htd2, ?_⟩
                obtain ⟨hlen, hall⟩ := takeDigits_spec 4 r4 d3 r5 htd3
                have h6 := digitsToNat_lt d3 hall
                rw [hlen] at h6
                calc digitsToNat d3 < 10 ^ 4 := h6
                  _ = 10000 := by norm_num
            · rw [if_neg hs2] at h
              cases h
      · rw [if_neg hs1] at h
        cases h

theorem matchDateHere_bounds (l : List Char) (a b y : Nat)
    (h : matchDateHere l = some (a, b, y)) : a < 100 ∧ b < 100 ∧ y < 10000 := by
  unfold matchDateHere at h
  cases h22 : matchWith 2 2 l with
  | some r =>
    rw [h22] at h
    dsimp only at h
    exact matchWith_bounds 2 2 l a b y (by omega) (by omega)
      (by rw [h22, Option.some.inj h])
  | none =>
    rw [h22] at h
    dsimp only at h
    cases h21 : matchWith 2 1 l with
    | some r =>
      rw [h21] at h
      dsimp only at h
      exact matchWith_bounds 2 1 l a b y (by omega) (by omega)
        (by rw [h21, Option.some.inj h])
    | none =>
      rw [h21] at h
      dsimp only at h
      cases h12 : matchWith 1 2 l with
      | some r =>
        rw [h12] at h
        dsimp only at h
        exact matchWith_bounds 1 2 l a b y (by omega) (by omega)
          (by rw [h12, Option.some.inj h])
      | none =>
        rw [h12] at h
        dsimp only at h
        exact matchWith_bounds 1 1 l a b y (by omega) (by omega) h

theorem findDatePattern_bounds (l : List Char) (a b y : Nat)
    (h : findDatePattern l = some (a, b, y)) : a < 100 ∧ b < 100 ∧ y < 10000 := by
  induction l with
  | nil => cases h
  | cons c rest ih =>
    unfold findDatePattern at h
    cases hm : matchDateHere (c :: rest) with
    | some r =>
      rw [hm] at h
      dsimp only at h
      exact matchDateHere_bounds (c :: rest) a b y (by rw [hm, Option.some.inj h])
    | none =>
      rw [hm] at h
      dsimp only at h
      exact ih h

theorem jsTimeValid_of_small (a b y : Nat) (ha : a < 100) (hb : b < 100)
    (hy : y < 10000) :
    jsTimeValid (jsDateValue (Int.ofNat y) (Int.ofNat a - 1) (Int.ofNat b)) = true := by
  simp only [jsDateValue, jsYearFor, jsMakeDay, daysFromCivil, jsTimeValid,
    Int.ofNat_eq_coe]
  rw [decide_eq_true_eq]
  split <;> split <;> omega

/-! ## Claim C8 -/

/-- C8 counterexample: for `"13/05/2024"` (first component 13, not a valid
month) with the general calendar parse failing, `parseDate` returns the
month/day/year construction `new Date(2024, 12, 5)`, which JS month
rollover makes the VALID date Jan 5 2025 — not the day/month/year
interpretation May 13 2024 that the claim says is returned. -/
theorem claim8_counterexample :
    parseDate (fun _ => none) "13/05/2024" = some (jsDateValue 2024 12 5)
    ∧ jsDateValue 2024 12 5 ≠ jsDateValue 2024 4 13 := by
  decide

/-- C8 amended: `parseDate` proceeds in order — (1) the general calendar
parse is returned when it yields a valid instant; (2) otherwise, when the
numeric pattern matches with groups (a, b, y), the month/day/year
construction `new Date(y, a-1, b)` is ALWAYS valid (ECMAScript month/day
rollover never yields an invalid date for the matched 1-2 digit groups and
4-digit year, and a matched year group 0000-0099 is taken by the Date
constructor as the year 1900+y), so it is always the value returned and the
day/month/year branch is unreachable; (3) with no general parse and no
pattern match the result is absent. -/
theorem claim8_amended (gp : String → Option Int) (s : String) (hs : s ≠ "") :
    (∀ t : Int, gp s = some t → parseDate gp s = some t)
    ∧ (∀ a b y : Nat, gp s = none → findDatePattern s.data = some (a, b, y) →
        parseDate gp s
          = some (jsDateValue (Int.ofNat y) (Int.ofNat a - 1) (Int.ofNat b)))
    ∧ (gp s = none → findDatePattern s.data = none → parseDate gp s = none) := by
  refine ⟨?_, ?_, ?_⟩
  · intro t ht
    unfold parseDate
    rw [if_neg hs, ht]
  · intro a b y hgp hfind
    unfold parseDate
    rw [if_neg hs, hgp]
    dsimp only
    rw [hfind]
    dsimp only
    obtain ⟨ha, hb, hy⟩ := findDatePattern_bounds s.data a b y hfind
    rw [jsTimeValid_of_small a b y ha hb hy]
    rfl
  · intro hgp hfind
    unfold parseDate
    rw [if_neg hs, hgp]
    dsimp only
    rw [hfind]

/-- Witness for C8 amended: the general parse wins when it succeeds; on
failure the month/day/year interpretation (with rollover) is returned; and a
matched 0000-0099 year group lands in 19xx by the constructor's
two-digit-year rule. -/
theorem claim8_amended_witness :
    parseDate (fun u => if u = "2024-01-05" then some 1704412800000 else none)
        "2024-01-05" = some 1704412800000
    ∧ parseDate (fun _ => none) "6/7/2024" = some (jsDateValue 2024 5 7)
    ∧ parseDate (fun _ => none) "5/6/0024" = some (jsDateValue 24 4 6)
    ∧ jsDateValue 24 4 6 = jsDateValue 1924 4 6 :=
  ⟨(claim8_amended (fun u => if u = "2024-01-05" then some 1704412800000 else none)
      "2024-01-05" (by decide)).1 1704412800000 (by decide),
   by
    have h := (claim8_amended (fun _ => none) "6/7/2024" (by decide)).2.1
      6 7 2024 rfl (by decide)
    rw [h]
    decide,
   by
    have h := (claim8_amended (fun _ => none) "5/6/0024" (by decide)).2.1
      5 6 24 rfl (by decide)
    rw [h]
    decide,
   by decide⟩

/-! ## Topic store lemmas -/

theorem storeSet_pred_comp (n j : String) (d : TopicNodeData) :
    ((fun p : String × TopicNodeData => p.1 == j) ∘
        fun p : String × TopicNodeData => if p.1 == n then (n, d) else p)
      = fun p : String × TopicNodeData => p.1 == j := by
  funext q
  by_cases hq : q.1 = n <;> simp [hq]

theorem storeGet_storeSet_self (store : TopicStore) (n : String) (d : TopicNodeData) :
    storeGet (storeSet store n d) n = some d := by
  unfold storeSet
  split
  case isTrue ha =>
    unfold storeGet
    rw [List.find?_map, storeSet_pred_comp]
    obtain ⟨q, hq_mem, hq⟩ := List.any_eq_true.mp ha
    have hsome : (store.find? fun p => p.1 == n).isSome := by
      rw [List.find?_isSome]
      exact ⟨q, hq_mem, hq⟩
    obtain ⟨w, hw⟩ := Option.isSome_iff_exists.mp hsome
    have hwk : w.1 = n := by simpa using List.find?_some hw
    rw [hw]
    simp [hwk]
  case isFalse ha =>
    unfold storeGet
    have hnone : store.find? (fun p => p.1 == n) = none :=
      List.find?_eq_none.mpr fun x hx hpx => ha (List.any_eq_true.mpr ⟨x, hx, hpx⟩)
    rw [List.find?_append, hnone]
    simp

theorem storeGet_storeSet_ne (store : TopicStore) (n j : String) (d : TopicNodeData)
    (hne : j ≠ n) : storeGet (storeSet store n d) j = storeGet store j := by
  unfold storeSet
  split
  case isTrue ha =>
    unfold storeGet
    rw [List.find?_map, storeSet_pred_comp]
    cases hw : store.find? (fun p => p.1 == j) with
    | none => simp
    | some w =>
      have hwj : w.1 = j := by simpa using List.find?_some hw
      have hwk : ¬(w.1 = n) := by rw [hwj]; exact hne
      simp [hwk]
  case isFalse ha =>
    unfold storeGet
    rw [List.find?_append]
    have h2 : ([(n, d)].find? fun p => p.1 == j) = none := by
      simp only [List.find?_singleton]
      rw [if_neg]
      simp
      exact fun h => hne h.symm
    rw [h2]
    cases store.find? (fun p => p.1 == j) <;> simp

theorem countOf_storeSet_self (store : TopicStore) (n : String) (d : TopicNodeData) :
    countOf (storeSet store n d) n = d.count := by
  unfold countOf
  rw [storeGet_storeSet_self]

theorem countOf_storeSet_ne (store : TopicStore) (n j : String) (d : TopicNodeData)
    (hne : j ≠ n) : countOf (storeSet store n d) j = countOf store j := by
  unfold countOf
  rw [storeGet_storeSet_ne store n j d hne]

theorem countOf_registerChild (store : TopicStore) (parent : Option String)
    (n m : String) : countOf (registerChild store parent n) m = countOf store m := by
  unfold registerChild
  cases parent with
  | none => rfl
  | some p =>
    dsimp only
    cases hp : storeGet store p with
    | none => rfl
    | some pd =>
      dsimp only
      split
      · rfl
      · by_cases hm : m = p
        · subst hm
          rw [countOf_storeSet_self]
          unfold countOf
          rw [hp]
        · exact countOf_storeSet_ne _ _ _ _ hm

theorem storeGet_registerChild_isSome (store : TopicStore) (parent : Option String)
    (n m : String) (h : (storeGet store m).isSome) :
    (storeGet (registerChild store parent n) m).isSome := by
  unfold registerChild
  cases parent with
  | none => exact h
  | some p =>
    dsimp only
    cases hp : storeGet store p with
    | none => exact h
    | some pd =>
      dsimp only
      split
      · exact h
      · by_cases hm : m = p
        · subst hm
          rw [storeGet_storeSet_self]
          rfl
        · rw [storeGet_storeSet_ne _ _ _ _ hm]
          exact h

theorem countOf_addTopicPath (r : AnalysisResult) (l : List String) :
    ∀ (store : TopicStore) (parent : Option String) (m : String),
    countOf (addTopicPath r store parent l) m = countOf store m + l.count m := by
  induction l with
  | nil =>
    intro store parent m
    simp [addTopicPath]
  | cons t rest ih =>
    intro store parent m
    cases hg : storeGet store t with
    | some nd =>
      simp only [addTopicPath, hg]
      rw [ih]
      by_cases hm : m = t
      · subst hm
        rw [countOf_storeSet_self]
        have h2 : countOf store m = nd.count := by
          unfold countOf
          rw [hg]
        rw [h2, List.count_cons_self]
        dsimp only
        omega
      · rw [countOf_storeSet_ne _ _ _ _ hm, List.count_cons_of_ne hm]
    | none =>
      simp only [addTopicPath, hg]
      have hsome : (storeGet (registerChild
          (storeSet store t { count := 0, responses := [], subTopics := [], expanded := false })
          parent t) t).isSome := by
        apply storeGet_registerChild_isSome
        rw [storeGet_storeSet_self]
        rfl
      cases hg2 : storeGet (registerChild
          (storeSet store t { count := 0, responses := [], subTopics := [], expanded := false })
          parent t) t with
      | none => rw [hg2] at hsome; cases hsome
      | some nd0 =>
        dsimp only
        rw [ih]
        have hstore1 : ∀ j : String,
            countOf (registerChild
              (storeSet store t { count := 0, responses := [], subTopics := [], expanded := false })
              parent t) j
            = if j = t then 0 else countOf store j := by
          intro j
          rw [countOf_registerChild]
          by_cases hj : j = t
          · subst hj
            rw [countOf_storeSet_self, if_pos rfl]
          · rw [countOf_storeSet_ne _ _ _ _ hj, if_neg hj]
        have hnd0 : nd0.count = 0 := by
          have h3 := hstore1 t
          unfold countOf at h3
          rw [hg2, if_pos rfl] at h3
          exact h3
        by_cases hm : m = t
        · subst hm
          rw [countOf_storeSet_self]
          have h4 : countOf store m = 0 := by
            unfold countOf
            rw [hg]
          rw [h4, hnd0, List.count_cons_self]
          dsimp only
          omega
        · rw [countOf_storeSet_ne _ _ _ _ hm, hstore1 m, if_neg hm,
            List.count_cons_of_ne hm]

theorem countOf_buildTopicStore (results : List AnalysisResult) (m : String) :
    countOf (buildTopicStore results) m
      = ((results.map (fun r => (analysisTopics r).getD [])).flatten).count m := by
  suffices h : ∀ acc : TopicStore,
      countOf (results.foldl
          (fun store r =>
            match analysisTopics r with
            | some topics =>
              if topics.isEmpty then store else addTopicPath r store none topics
            | none => store) acc) m
        = countOf acc m
          + ((results.map (fun r => (analysisTopics r).getD [])).flatten).count m by
    have h2 := h []
    simpa [buildTopicStore, countOf, storeGet] using h2
  induction results with
  | nil => intro acc; simp
  | cons r rs ih =>
    intro acc
    rw [List.foldl_cons, ih, List.map_cons, List.flatten_cons, List.count_append]
    cases ht : analysisTopics r with
    | none => simp
    | some topics =>
      dsimp only
      cases topics with
      | nil => simp
      | cons t ts =>
        rw [if_neg (by simp)]
        rw [countOf_addTopicPath]
        simp
        omega

/-! ## First-occurrence dedup lemmas -/

theorem mem_firstDedupAux (x : String) : ∀ (l seen : List String),
    x ∈ firstDedupAux seen l ↔ x ∈ l ∧ x ∉ seen := by
  intro l
  induction l with
  | nil => intro seen; simp [firstDedupAux]
  | cons y ys ih =>
    intro seen
    unfold firstDedupAux
    by_cases hy : y ∈ seen
    · rw [if_pos hy, ih]
      constructor
      · rintro ⟨h1, h2⟩
        exact ⟨List.mem_cons_of_mem _ h1, h2⟩
      · rintro ⟨h1, h2⟩
        rcases List.mem_cons.mp h1 with rfl | h3
        · exact absurd hy h2
        · exact ⟨h3, h2⟩
    · rw [if_neg hy]
      constructor
      · intro h
        rcases List.mem_cons.mp h with rfl | h2
        · exact ⟨List.mem_cons_self _ _, hy⟩
        · obtain ⟨h3, h4⟩ := (ih _).mp h2
          have h5 : x ∉ seen := fun hx => h4 (List.mem_append.mpr (Or.inl hx))
          exact ⟨List.mem_cons_of_mem _ h3, h5⟩
      · rintro ⟨h1, h2⟩
        rcases List.mem_cons.mp h1 with rfl | h3
        · exact List.mem_cons_self _ _
        · by_cases hxy : x = y
          · subst hxy
            exact List.mem_cons_self _ _
          · apply List.mem_cons_of_mem
            apply (ih _).mpr
            refine ⟨h3, fun hx => ?_⟩
            rcases List.mem_append.mp hx with h5 | h5
            · exact h2 h5
            · rw [List.mem_singleton] at h5
              exact hxy h5

theorem countP_shift (xs : List String) (x : String) (seen : List String)
    (hx : x ∉ seen) :
    xs.count x + (xs.filter (fun z => !(seen ++ [x]).contains z)).length
      = (xs.filter (fun z => !seen.contains z)).length := by
  induction xs with
  | nil => simp
  | cons z zs ih =>
    rw [List.filter_cons, List.filter_cons]
    by_cases hz : z = x
    · subst hz
      rw [List.count_cons_self]
      have e1 : (!(seen ++ [z]).contains z) = false := by simp
      have e2 : (!seen.contains z) = true := by simp [hx]
      rw [e1, e2]
      simp only [Bool.false_eq_true, if_false, if_true, List.length_cons]
      omega
    · rw [List.count_cons_of_ne fun h => hz h.symm]
      have e0 : ((seen ++ [x]).contains z) = (seen.contains z) := by
        by_cases hzs : z ∈ seen <;> simp [hzs, hz]
      rw [e0]
      cases hc : (!seen.contains z) with
      | false => simpa using ih
      | true =>
        simp only [if_true, List.length_cons]
        omega

theorem sum_count_firstDedupAux (L : List String) : ∀ seen : List String,
    ((firstDedupAux seen L).map (fun n => L.count n)).sum
      = (L.filter (fun z => !seen.contains z)).length := by
  induction L with
  | nil => intro seen; simp [firstDedupAux]
  | cons x xs ih =>
    intro seen
    unfold firstDedupAux
    by_cases hx : x ∈ seen
    · rw [if_pos hx]
      have hcongr : (firstDedupAux seen xs).map (fun n => (x :: xs).count n)
          = (firstDedupAux seen xs).map (fun n => xs.count n) := by
        apply List.map_congr_left
        intro n hn
        have hns : n ∉ seen := ((mem_firstDedupAux n xs seen).mp hn).2
        have hnx : n ≠ x := fun e => hns (by rw [e]; exact hx)
        exact List.count_cons_of_ne hnx xs
      rw [hcongr, ih seen, List.filter_cons]
      have e1 : (!seen.contains x) = false := by simp [hx]
      rw [e1]
      simp
    · rw [if_neg hx, List.map_cons, List.sum_cons, List.count_cons_self]
      have hcongr : (firstDedupAux (seen ++ [x]) xs).map (fun n => (x :: xs).count n)
          = (firstDedupAux (seen ++ [x]) xs).map (fun n => xs.count n) := by
        apply List.map_congr_left
        intro n hn
        have hns : n ∉ seen ++ [x] := ((mem_firstDedupAux n xs _).mp hn).2
        have hnx : n ≠ x := fun e => hns (by
          rw [e]
          exact List.mem_append.mpr (Or.inr (List.mem_singleton.mpr rfl)))
        exact List.count_cons_of_ne hnx xs
      rw [hcongr, ih (seen ++ [x]), List.filter_cons]
      have e1 : (!seen.contains x) = true := by simp [hx]
      rw [e1]
      have key := countP_shift xs x seen hx
      simp only [if_true, List.length_cons]
      omega

theorem sum_count_firstDedup (L : List String) :
    ((firstDedup L).map (fun n => L.count n)).sum = L.length := by
  have h := sum_count_firstDedupAux L []
  simpa [firstDedup] using h

/-! ## Topic tree assembly lemmas -/

theorem sum_map_ite_eq_countP {α : Type} (p : α → Bool) (l : List α) :
    (l.map (fun a => if p a = true then 1 else 0)).sum = l.countP p := by
  induction l with
  | nil => simp
  | cons a as ih =>
    rw [List.map_cons, List.sum_cons, ih, List.countP_cons]
    by_cases hp : p a = true <;> simp [hp] <;> omega

theorem length_filterMap_eq_countP {α β : Type} (f : α → Option β) (l : List α) :
    (l.filterMap f).length = l.countP (fun a => (f a).isSome) := by
  induction l with
  | nil => rfl
  | cons a as ih =>
    rw [List.filterMap_cons, List.countP_cons]
    cases hf : f a with
    | none => simp [ih]
    | some b =>
      rw [List.length_cons, ih]
      simp

theorem topics_count_indicator (results : List AnalysisResult) (n : String)
    (H1 : ∀ r ∈ results, ∀ t ∈ ((analysisTopics r).getD []).tail,
        t ∉ topLevelTopicNames results)
    (hn : n ∈ topLevelTopicNames results)
    (r : AnalysisResult) (hr : r ∈ results) :
    ((analysisTopics r).getD []).count n
      = if (firstTopic r == some n) = true then 1 else 0 := by
  cases ht : analysisTopics r with
  | none => simp [firstTopic, ht]
  | some l =>
    cases l with
    | nil => simp [firstTopic, ht]
    | cons t rest =>
      have hrest : n ∉ rest := by
        intro hmem
        exact (H1 r hr n (by rw [ht]; exact hmem)) hn
      have hft : firstTopic r = some t := by simp [firstTopic, ht]
      rw [hft]
      dsimp only [Option.getD]
      rw [List.count_cons, List.count_eq_zero_of_not_mem hrest]
      by_cases hnt : n = t
      · subst hnt
        simp
      · simp [hnt, Ne.symm hnt]

theorem countOf_eq_firstTopic_count (results : List AnalysisResult) (n : String)
    (H1 : ∀ r ∈ results, ∀ t ∈ ((analysisTopics r).getD []).tail,
        t ∉ topLevelTopicNames results)
    (hn : n ∈ topLevelTopicNames results) :
    countOf (buildTopicStore results) n
      = (results.filter (fun r => firstTopic r == some n)).length := by
  rw [countOf_buildTopicStore, List.count_flatten, List.map_map]
  have hcongr : results.map ((fun l : List String => l.count n)
        ∘ fun r => (analysisTopics r).getD [])
      = results.map (fun r => if (firstTopic r == some n) = true then 1 else 0) := by
    apply List.map_congr_left
    intro r hr
    exact topics_count_indicator results n H1 hn r hr
  rw [hcongr, sum_map_ite_eq_countP, List.countP_eq_length_filter]

theorem mem_topLevel_iff (results : List AnalysisResult) (n : String) :
    n ∈ topLevelTopicNames results ↔
      (∃ r ∈ results, firstTopic r = some n) ∧ n ≠ "" := by
  unfold topLevelTopicNames truthyFirst firstDedup
  rw [mem_firstDedupAux]
  simp only [List.mem_filterMap, List.not_mem_nil, not_false_iff, and_true]
  constructor
  · rintro ⟨r, hr, hf⟩
    cases hft : firstTopic r with
    | none => rw [hft] at hf; cases hf
    | some t =>
      rw [hft] at hf
      dsimp only at hf
      by_cases ht : t = ""
      · rw [if_pos ht] at hf
        cases hf
      · rw [if_neg ht] at hf
        have he : t = n := Option.some.inj hf
        subst he
        exact ⟨⟨r, hr, hft⟩, ht⟩
  · rintro ⟨⟨r, hr, hft⟩, hne⟩
    refine ⟨r, hr, ?_⟩
    rw [hft]
    dsimp only
    rw [if_neg hne]

theorem storeGet_topLevel_isSome (results : List AnalysisResult) (n : String)
    (hn : n ∈ topLevelTopicNames results) :
    (storeGet (buildTopicStore results) n).isSome := by
  obtain ⟨⟨r, hr, hft⟩, hne⟩ := (mem_topLevel_iff results n).mp hn
  have hcount : 0 < countOf (buildTopicStore results) n := by
    rw [countOf_buildTopicStore]
    apply List.count_pos_iff.mpr
    apply List.mem_flatten.mpr
    refine ⟨(analysisTopics r).getD [], List.mem_map.mpr ⟨r, hr, rfl⟩, ?_⟩
    unfold firstTopic at hft
    cases ht : analysisTopics r with
    | none => rw [ht] at hft; simp at hft
    | some l =>
      rw [ht] at hft
      dsimp only [Option.getD]
      simp only [Option.some_bind] at hft
      cases l with
      | nil => simp at hft
      | cons a as =>
        have ha : a = n := by simpa using hft
        rw [ha]
        exact List.mem_cons_self _ _
  unfold countOf at hcount
  cases hs : storeGet (buildTopicStore results) n with
  | none => rw [hs] at hcount; simp at hcount
  | some d => rfl

theorem sum_counts_topLevel (store : TopicStore) (names : List String)
    (h : ∀ n ∈ names, (storeGet store n).isSome) :
    ((names.filterMap (fun name =>
        match storeGet store name with
        | some d => some (name, d)
        | none => none)).map (fun p => p.2.count)).sum
      = (names.map (fun n => countOf store n)).sum := by
  induction names with
  | nil => rfl
  | cons n ns ih =>
    rw [List.filterMap_cons]
    cases hs : storeGet store n with
    | none =>
      have h2 := h n (List.mem_cons_self _ _)
      rw [hs] at h2
      cases h2
    | some d =>
      dsimp only
      rw [List.map_cons, List.sum_cons, List.map_cons, List.sum_cons,
        ih fun m hm => h m (List.mem_cons_of_mem _ hm)]
      have h3 : countOf store n = d.count := by
        unfold countOf
        rw [hs]
      rw [h3]

theorem topicTree_mem (results : List AnalysisResult) (p : String × TopicNodeData)
    (hp : p ∈ topicTree results) :
    p.1 ∈ topLevelTopicNames results
    ∧ storeGet (buildTopicStore results) p.1 = some p.2 := by
  simp only [topicTree] at hp
  have hp2 := (sortCountDesc_perm (fun q : String × TopicNodeData => q.2.count) _).mem_iff.mp hp
  obtain ⟨name, hname, hmatch⟩ := List.mem_filterMap.mp hp2
  cases hs : storeGet (buildTopicStore results) name with
  | none => rw [hs] at hmatch; cases hmatch
  | some d =>
    rw [hs] at hmatch
    dsimp only at hmatch
    have he : (name, d) = p := Option.some.inj hmatch
    rw [← he]
    exact ⟨hname, hs⟩

theorem topLevel_eq_dedup (results : List AnalysisResult)
    (H2 : ∀ r ∈ results, firstTopic r ≠ some "") :
    topLevelTopicNames results = firstDedup (results.filterMap firstTopic) := by
  unfold topLevelTopicNames truthyFirst
  congr 1
  apply List.filterMap_congr
  intro r hr
  cases hft : firstTopic r with
  | none => rfl
  | some t =>
    dsimp only
    rw [if_neg]
    intro he
    exact H2 r hr (by rw [hft, he])

/-! ## Bridge between the throwing getter and its non-throwing value -/

theorem firstTopicE_ok (r : AnalysisResult) (h : analysisIsError r = false) :
    firstTopicE r = .ok (firstTopic r) := by
  unfold analysisIsError at h
  unfold firstTopicE firstTopic analysisTopics
  cases ha : r.analysis with
  | none => rfl
  | some out =>
    rw [ha] at h
    cases out with
    | classification c => rfl
    | errorObj m => simp at h

theorem mapFirstTopics_ok (results : List AnalysisResult)
    (h : ∀ r ∈ results, analysisIsError r = false) :
    mapFirstTopics results = .ok (results.map firstTopic) := by
  induction results with
  | nil => rfl
  | cons r rs ih =>
    simp only [mapFirstTopics, List.map_cons]
    rw [firstTopicE_ok r (h r (List.mem_cons_self _ _)),
      ih (fun x hx => h x (List.mem_cons_of_mem _ hx))]

theorem mapFirstTopics_error (results : List AnalysisResult) (r : AnalysisResult)
    (hr : r ∈ results) (hm : analysisIsError r = true) :
    mapFirstTopics results = .error () := by
  induction results with
  | nil => cases hr
  | cons x xs ih =>
    simp only [mapFirstTopics]
    rcases List.mem_cons.mp hr with he | hxs
    · have hfe : firstTopicE x = .error () := by
        rw [← he]
        unfold analysisIsError at hm
        unfold firstTopicE
        cases ha : r.analysis with
        | none => rw [ha] at hm; simp at hm
        | some out =>
          rw [ha] at hm
          cases out with
          | classification c => simp at hm
          | errorObj m => rfl
      rw [hfe]
    · cases hfe : firstTopicE x with
      | error e => cases e; rfl
      | ok v => rw [ih hxs]

theorem topicTreeE_ok (results : List AnalysisResult)
    (h : ∀ r ∈ results, analysisIsError r = false) :
    topicTreeE results = .ok (topicTree results) := by
  unfold topicTreeE
  rw [mapFirstTopics_ok results h]
  dsimp only
  rw [List.filterMap_map]
  rfl

theorem topicTreeE_error (results : List AnalysisResult) (r : AnalysisResult)
    (hr : r ∈ results) (hm : analysisIsError r = true) :
    topicTreeE results = .error () := by
  unfold topicTreeE
  rw [mapFirstTopics_error results r hr hm]

/-! ## Claim C2 -/

/-- C2 counterexample: over records with topic lists `[["A"],["B","A"]]` the
getter returns normally, but the flat name-keyed `root` table shares the
node `A` between the root level and the sub-topic level (the `currentLevel`
cursor never descends), so the root-level node `A` has count 2 although only
one record's FIRST topic is `A`, and the root counts sum to 3 although only
2 records have topics. -/
theorem claim2_counterexample :
    ((topicTreeE sharedNameExample).toOption.map
        (fun l => l.map (fun p => (p.1, p.2.count))) = some [("A", 2), ("B", 1)])
    ∧ ((sharedNameExample.filter (fun r => firstTopic r == some "A")).length = 1)
    ∧ ((sharedNameExample.filter (fun r => (firstTopic r).isSome)).length = 2) := by
  decide

/-- C2 amended: whenever some record's `analysis` slot holds the analyzer's
error object, the getter throws (`r.analysis?.topics[0]` is a `TypeError`
there).  Provided no record is in that state (H0), the getter returns; a
root-level node's count then equals the total number of occurrences of its
name anywhere in the records' topic lists, so, provided also that no
record's non-first topic is the name of a root-level node (H1) and that no
record has the empty string as first topic (H2), each root-level node's
count equals the number of records whose first topic is that node's name,
and the root-level counts sum to the number of records having at least one
topic. -/
theorem claim2_amended (results : List AnalysisResult)
    (H0 : ∀ r ∈ results, analysisIsError r = false)
    (H1 : ∀ r ∈ results, ∀ t ∈ ((analysisTopics r).getD []).tail,
        t ∉ topLevelTopicNames results)
    (H2 : ∀ r ∈ results, firstTopic r ≠ some "") :
    (topicTreeE results = .ok (topicTree results))
    ∧ (∀ p ∈ topicTree results,
        p.2.count = (results.filter (fun r => firstTopic r == some p.1)).length)
    ∧ (((topicTree results).map (fun p => p.2.count)).sum
        = (results.filter (fun r => (firstTopic r).isSome)).length)
    ∧ (∀ results2 : List AnalysisResult, ∀ r ∈ results2,
        analysisIsError r = true → topicTreeE results2 = .error ()) := by
  refine ⟨topicTreeE_ok results H0, ?_, ?_,
    fun rs2 r hr hm => topicTreeE_error rs2 r hr hm⟩
  · intro p hp
    obtain ⟨hmem, hget⟩ := topicTree_mem results p hp
    have h1 : countOf (buildTopicStore results) p.1 = p.2.count := by
      unfold countOf
      rw [hget]
    rw [← h1, countOf_eq_firstTopic_count results p.1 H1 hmem]
  · have hperm : (topicTree results).Perm
        ((topLevelTopicNames results).filterMap (fun name =>
          match storeGet (buildTopicStore results) name with
          | some d => some (name, d)
          | none => none)) := by
      simp only [topicTree]
      exact sortCountDesc_perm _ _
    rw [(hperm.map (fun p => p.2.count)).sum_eq]
    rw [sum_counts_topLevel _ _ (fun n hn => storeGet_topLevel_isSome results n hn)]
    have hcongr : (topLevelTopicNames results).map
          (fun n => countOf (buildTopicStore results) n)
        = (topLevelTopicNames results).map
            (fun n => ((results.filterMap firstTopic).count n)) := by
      apply List.map_congr_left
      intro n hn
      rw [countOf_eq_firstTopic_count results n H1 hn]
      rw [List.count_filterMap, List.countP_eq_length_filter]
    rw [hcongr, topLevel_eq_dedup results H2, sum_count_firstDedup,
      length_filterMap_eq_countP, List.countP_eq_length_filter]

/-- Witness for C2 amended: on records with disjoint first- and sub-topic
names the getter returns and the counts sum as stated, and on a batch
holding an error-object analysis the getter throws. -/
theorem claim2_amended_witness :
    (topicTreeE disjointTopicExample = .ok (topicTree disjointTopicExample))
    ∧ ((topicTree disjointTopicExample).map (fun p => p.2.count)).sum
        = (disjointTopicExample.filter (fun r => (firstTopic r).isSome)).length
    ∧ topicTreeE [crashRecord] = .error () :=
  ⟨(claim2_amended disjointTopicExample (by decide) (by decide) (by decide)).1,
   (claim2_amended disjointTopicExample (by decide) (by decide) (by decide)).2.2.1,
   (claim2_amended disjointTopicExample (by decide) (by decide) (by decide)).2.2.2
     [crashRecord] crashRecord (by decide) (by decide)⟩

end SurveyLens
